import Mathlib

/-!
# Verification of the DESDEO core against its specification

This file shallowly embeds the parts of the DESDEO repository that the
verified claims are about:

* `desdeo/tools/scalarization.py` — the scalarization-function builders
  (`add_asf_nondiff`, `add_asf_generic_nondiff`, `add_weighted_sums`,
  `add_objective_as_scalarization`, `add_epsilon_constraints`,
  `add_scalarization_function`, `add_lte_constraints`);
* `desdeo/mcdm/nimbus.py` — the Synchronous NIMBUS orchestration
  (`infer_classifications`, `solve_sub_problems`,
  `solve_intermediate_solutions`, `generate_starting_point`);
* `desdeo/api/routers/NIMBUS.py` — the archive reconciliation
  (`save_results_to_db` and its helpers).

Conventions of the embedding:

* Real (Python float) arithmetic is modelled exactly by `ℚ`.
* Python dicts keyed by objective/variable symbols are modelled as
  association lists `List (String × α)`; `List.lookup` models `dict[k]`
  (first match; the dicts built by the code have unique keys), and
  `dictInsert` models `d[k] = v` / `d |= {k: v}` (replace or append).
* Python exceptions are modelled with `Except`: each embedded fallible
  function returns `Except e α` and `raise` becomes `Except.error`.
* External collaborators that are not part of the repository (solver
  backends) are uninterpreted function parameters, as the spec treats
  them (`target_symbol -> result` capabilities).
* Code of the repository that is only imported, not present under the
  analysed sources (the `Problem` schema, the infix parser, the generic
  evaluator, the differentiable scalarization builders), is modelled
  from the spec; each such definition carries a doc comment starting
  with `Modelled from the spec:`.
* The infix strings the scalarization builders produce are embedded as
  the operator trees the spec's grammar (§4.1, standard precedence and
  associativity) assigns to them.  The one place where the string level
  is semantically visible — `add_asf_nondiff` interpolating the literal
  `1` directly after the reference value (`... else 1` inside the
  f-string), which concatenates a digit to the rendered number — is
  modelled by the decimal-numeral type `Dec` and `Dec.appendOne`.
-/

namespace DesdeoSpec

/-! ## Numeric tolerance (numpy `isclose` / `allclose`) -/

/-- numpy's default absolute tolerance `atol = 1e-8`. -/
def atol : ℚ := 1 / 100000000

/-- numpy's default relative tolerance `rtol = 1e-5`. -/
def rtol : ℚ := 1 / 100000

/-- `np.isclose(a, b)` with default tolerances:
`|a - b| <= atol + rtol * |b|` (asymmetric in `b`). -/
def isClose (a b : ℚ) : Bool := |a - b| ≤ atol + rtol * |b|

/-- `np.allclose(xs, ys)` on two equal-length vectors: componentwise
`isClose`.  The callers in the repository only compare objective vectors
of the same problem, which have equal lengths; numpy broadcasting of
mismatched shapes is out of scope. -/
def allCloseList (xs ys : List ℚ) : Bool :=
  decide (xs.length = ys.length) && (List.zip xs ys).all fun p => isClose p.1 p.2

/-! ## Decimal numerals -/

/-- A decimal numeral as Python renders one inside an f-string: the
digit string `m` with `e` digits after the decimal point; its value is
`m / 10 ^ e`.  `⟨30, 1⟩` renders as `"3.0"`, `⟨-35, 1⟩` as `"-3.5"`,
`⟨3, 0⟩` as `"3"`.  (Values whose Python `repr` uses scientific
notation are outside this model; no claim needs them.) -/
structure Dec where
  m : ℤ
  e : ℕ
  deriving DecidableEq, Repr

/-- The rational value of a decimal numeral. -/
def Dec.val (d : Dec) : ℚ := (d.m : ℚ) / (10 : ℚ) ^ d.e

/-- Appending the character `1` to the rendered numeral, as the f-string
`... else 1` branch of `add_asf_nondiff` does: `"3.0"` becomes
`"3.01"`, `"-3.5"` becomes `"-3.51"`, `"3"` becomes `"31"`. -/
def Dec.appendOne (d : Dec) : Dec :=
  ⟨d.m * 10 + (if d.m < 0 then -1 else 1), if d.e = 0 then 0 else d.e + 1⟩

/-! ## Association-list dictionaries -/

/-- `d[k] = v` on a Python dict: replace the value of an existing key in
place, otherwise append the new binding. -/
def dictInsert {α : Type} (d : List (String × α)) (kv : String × α) : List (String × α) :=
  match d with
  | [] => [kv]
  | (k, v) :: rest =>
      if k = kv.1 then (k, kv.2) :: rest else (k, v) :: dictInsert rest kv

/-- `List.lookup` written with the key first, matching `dict[key]`. -/
def dlookup {α : Type} (d : List (String × α)) (k : String) : Option α :=
  List.lookup k d

/-! ## Expression trees

The scalarization builders emit infix strings (or MathJSON arrays) that
the problem schema later parses.  The parser/evaluator are not part of
the analysed sources; per the spec (§4.1) the grammar is the standard
infix one with `Max`/function calls, so the embedding carries the
operator tree the grammar assigns to each emitted string directly. -/

inductive Expr where
  | lit (q : ℚ)
  | sym (s : String)
  | neg (e : Expr)
  | add (a b : Expr)
  | sub (a b : Expr)
  | mul (a b : Expr)
  | div (a b : Expr)
  | maxL (es : List Expr)

/-- `Max` over a list of already-evaluated operands (`Max` of zero
operands is an error per the spec; the `0` default is never reached by
expressions the builders emit for a nonempty objective list). -/
def maxQ : List ℚ → ℚ
  | [] => 0
  | x :: xs => xs.foldl max x

mutual

/-- Evaluate an expression tree over an assignment of the `_min`
objective symbols (spec §4.2; division is `ℚ` field division). -/
def evalE (σ : String → ℚ) : Expr → ℚ
  | .lit q => q
  | .sym s => σ s
  | .neg e => -evalE σ e
  | .add a b => evalE σ a + evalE σ b
  | .sub a b => evalE σ a - evalE σ b
  | .mul a b => evalE σ a * evalE σ b
  | .div a b => evalE σ a / evalE σ b
  | .maxL es => maxQ (evalList σ es)

/-- Evaluate each expression of an operand list. -/
def evalList (σ : String → ℚ) : List Expr → List ℚ
  | [] => []
  | e :: es => evalE σ e :: evalList σ es

end

/-- `" + ".join(operands)` parsed back: a left-associated sum.  (The
empty join would not parse; the builders only call it on one operand
per objective of a problem.) -/
def joinAdd : List Expr → Expr
  | [] => .lit 0
  | e :: es => es.foldl .add e

/-! ## The problem model

The `Problem` schema lives in `desdeo/problem/schema.py`, which is not
among the analysed sources (only its declarations and callers are); the
aggregate below is modelled from the spec (§3 data model). -/

/-- A decision variable (spec §3; only the fields the analysed code
touches are carried). -/
structure Variable where
  symbol : String
  lowerbound : Option ℚ := none
  upperbound : Option ℚ := none

/-- An objective: symbol, direction and the optional ideal/nadir scalars
(spec §3). -/
structure Objective where
  symbol : String
  maximize : Bool
  ideal : Option ℚ := none
  nadir : Option ℚ := none

/-- `ConstraintTypeEnum`: `≤` or `=`. -/
inductive ConstraintType where
  | LTE
  | EQ

/-- A constraint row, as `desdeo.problem.Constraint` is constructed by
the builders in `scalarization.py`. -/
structure Constraint where
  name : String
  symbol : String
  consType : ConstraintType
  func : Expr

/-- A scalarization function: symbol plus expression (spec §3). -/
structure ScalarizationFunction where
  name : String
  symbol : String
  func : Expr

/-- Modelled from the spec: the `Problem` aggregate root (§3).
`constraints` is nullable, as `add_lte_constraints` in the analysed
sources handles a `None` constraint list explicitly. -/
structure Problem where
  name : String
  /-- the `variables` field (`variables` is a reserved word here) -/
  vars : List Variable
  constants : List (String × ℚ)
  objectives : List Objective
  constraints : Option (List Constraint) := none
  extraFuncs : List (String × Expr) := []
  scalarizations : List ScalarizationFunction := []

/-- Modelled from the spec: `Problem.add_scalarization` — "every
mutation (add scalarization, …) produces a new Problem value", with the
scalarization appended (§3 lifecycle, §4.3). -/
def Problem.addScalarization (p : Problem) (sf : ScalarizationFunction) : Problem :=
  { p with scalarizations := p.scalarizations ++ [sf] }

/-- Modelled from the spec: `Problem.add_constraints` — a new Problem
value with the constraints appended, exactly the `model_copy` pattern
`add_lte_constraints` spells out in the analysed sources. -/
def Problem.addConstraints (p : Problem) (cs : List Constraint) : Problem :=
  { p with constraints := some ((p.constraints.getD []) ++ cs) }

/-- Modelled from the spec: `Problem.get_ideal_point()` returns an
objective dict of the (possibly undefined) ideal values. -/
def Problem.getIdealPoint (p : Problem) : List (String × Option ℚ) :=
  p.objectives.map fun o => (o.symbol, o.ideal)

/-- Modelled from the spec: `Problem.get_nadir_point()`. -/
def Problem.getNadirPoint (p : Problem) : List (String × Option ℚ) :=
  p.objectives.map fun o => (o.symbol, o.nadir)

/-- The `None in problem.get_ideal_point() or None in
problem.get_nadir_point()` guard of `nimbus.py`.  The Python test is
dict *key* membership; the spec (§4.4) states the intended check —
fail when any ideal or nadir *value* is undefined — and that is what
is modelled here.  Every theorem below assumes fully defined
ideal/nadir points, where both readings agree (the guard passes). -/
def idealNadirDefined (p : Problem) : Bool :=
  p.objectives.all fun o => o.ideal.isSome && o.nadir.isSome

/-! ## Scalarization builders (`desdeo/tools/scalarization.py`) -/

inductive ScalarizationError where
  | missingComponent
  | undefinedIdealOrNadir
  | missingKey
  | lengthMismatch
  | indexOutOfRange
  deriving DecidableEq, Repr

/-- `get_corrected_ideal_and_nadir`: the ideal/nadir dict entries of
maximized objectives are negated.  (In Python, `-objective.ideal` on an
undefined (`None`) value raises `TypeError`; here the undefined value
propagates into the explicit undefined-value check of each caller —
no analysed claim distinguishes the two error paths.) -/
def getCorrectedIdealAndNadir (p : Problem) :
    List (String × Option ℚ) × List (String × Option ℚ) :=
  (p.objectives.map fun o =>
      (o.symbol, if o.maximize then o.ideal.map (fun x => -x) else o.ideal),
   p.objectives.map fun o =>
      (o.symbol, if o.maximize then o.nadir.map (fun x => -x) else o.nadir))

/-- The per-objective denominator string
`({nadir} - ({ideal} - {delta}))` of `add_asf_nondiff`, built from the
corrected ideal and nadir dicts. -/
def asfDenominator (idealDict nadirDict : List (String × Option ℚ)) (delta : ℚ)
    (o : Objective) : Expr :=
  .sub (.lit (((dlookup nadirDict o.symbol).getD none).getD 0))
    (.sub (.lit (((dlookup idealDict o.symbol).getD none).getD 0)) (.lit delta))

/-- `add_asf_nondiff`.  The reference point is a dict of decimal
numerals (`Dec`), because the achievement function is assembled as an
f-string: for a maximized objective the rendered max-term operand is
`(f_min - z * -1)`, for a minimized one `(f_min - z)`; with
`reference_in_aug=True` the augmentation operand renders `... else 1`
(not `else ''`), concatenating the character `1` directly after the
reference value of a minimized objective — `Dec.appendOne`. -/
def addAsfNondiff (p : Problem) (symbol : String) (referencePoint : List (String × Dec))
    (referenceInAug : Bool := false) (delta : ℚ := 1 / 1000000) (rho : ℚ := 1 / 1000000) :
    Except ScalarizationError (Problem × String) :=
  if ¬ p.objectives.all (fun o => (dlookup referencePoint o.symbol).isSome) then
    .error .missingComponent
  else
    let idealDict := (getCorrectedIdealAndNadir p).1
    let nadirDict := (getCorrectedIdealAndNadir p).2
    if (idealDict.any fun kv => kv.2.isNone) || (nadirDict.any fun kv => kv.2.isNone) then
      .error .undefinedIdealOrNadir
    else
      let maxOperands := p.objectives.map fun o =>
        let z := (dlookup referencePoint o.symbol).getD ⟨0, 0⟩
        Expr.div
          (.sub (.sym (o.symbol ++ "_min"))
            (if o.maximize then .mul (.lit z.val) (.lit (-1)) else .lit z.val))
          (asfDenominator idealDict nadirDict delta o)
      let augOperands :=
        if ¬ referenceInAug then
          p.objectives.map fun o =>
            Expr.div (.sym (o.symbol ++ "_min")) (asfDenominator idealDict nadirDict delta o)
        else
          p.objectives.map fun o =>
            let z := (dlookup referencePoint o.symbol).getD ⟨0, 0⟩
            Expr.div
              (.sub (.sym (o.symbol ++ "_min"))
                (if o.maximize then .mul (.lit z.val) (.lit (-1)) else .lit z.appendOne.val))
              (asfDenominator idealDict nadirDict delta o)
      let asf := Expr.add (.maxL maxOperands) (.mul (.lit rho) (joinAdd augOperands))
      .ok (p.addScalarization ⟨"Achievement scalarizing function", symbol, asf⟩, symbol)

/-- `add_asf_generic_nondiff`: normalized by externally supplied
weights; the sign factor `{-1 if obj.maximize else 1}` multiplies the
reference value in the max term but the whole difference
`(f_min - z) * ±1` in the augmentation term. -/
def addAsfGenericNondiff (p : Problem) (symbol : String)
    (referencePoint weights : List (String × ℚ)) (referenceInAug : Bool := false)
    (rho : ℚ := 1 / 1000000) : Except ScalarizationError (Problem × String) :=
  if ¬ p.objectives.all (fun o => (dlookup referencePoint o.symbol).isSome) then
    .error .missingComponent
  else if ¬ p.objectives.all (fun o => (dlookup weights o.symbol).isSome) then
    .error .missingComponent
  else
    let idealDict := (getCorrectedIdealAndNadir p).1
    let nadirDict := (getCorrectedIdealAndNadir p).2
    if (idealDict.any fun kv => kv.2.isNone) || (nadirDict.any fun kv => kv.2.isNone) then
      .error .undefinedIdealOrNadir
    else
      let maxOperands := p.objectives.map fun o =>
        Expr.div
          (.sub (.sym (o.symbol ++ "_min"))
            (.mul (.lit ((dlookup referencePoint o.symbol).getD 0))
              (.lit (if o.maximize then -1 else 1))))
          (.lit ((dlookup weights o.symbol).getD 0))
      let augOperands :=
        if ¬ referenceInAug then
          p.objectives.map fun o =>
            Expr.div (.sym (o.symbol ++ "_min")) (.lit ((dlookup weights o.symbol).getD 0))
        else
          p.objectives.map fun o =>
            Expr.div
              (.mul
                (.sub (.sym (o.symbol ++ "_min"))
                  (.lit ((dlookup referencePoint o.symbol).getD 0)))
                (.lit (if o.maximize then -1 else 1)))
              (.lit ((dlookup weights o.symbol).getD 0))
      let sf := Expr.add (.maxL maxOperands) (.mul (.lit rho) (joinAdd augOperands))
      .ok (p.addScalarization ⟨"Generic achievement scalarizing function", symbol, sf⟩, symbol)

/-- `add_weighted_sums`: `Σ_i weight_i · f_i_min` (weights unchecked
beyond completeness). -/
def addWeightedSums (p : Problem) (symbol : String) (weights : List (String × ℚ)) :
    Except ScalarizationError (Problem × String) :=
  if ¬ p.objectives.all (fun o => (dlookup weights o.symbol).isSome) then
    .error .missingComponent
  else
    let sumTerms := p.objectives.map fun o =>
      Expr.mul (.lit ((dlookup weights o.symbol).getD 0)) (.sym (o.symbol ++ "_min"))
    .ok (p.addScalarization ⟨"Weighted sums scalarization function", symbol, joinAdd sumTerms⟩,
      symbol)

/-- `add_objective_as_scalarization`: target `["Multiply", 1, f_min]`. -/
def addObjectiveAsScalarization (p : Problem) (symbol objectiveSymbol : String) :
    Except ScalarizationError (Problem × String) :=
  if ¬ (p.objectives.map (fun o => o.symbol)).contains objectiveSymbol then
    .error .missingComponent
  else
    .ok (p.addScalarization
      ⟨"Objective " ++ objectiveSymbol, symbol, .mul (.lit 1) (.sym (objectiveSymbol ++ "_min"))⟩,
      symbol)

/-- `add_epsilon_constraints`: one target scalarization plus one `≤`
constraint `f_min - ε ≤ 0` per non-target objective.  (The Python dict
accesses `constraint_symbols[...]`/`epsilons[...]` raise `KeyError`
when an entry is missing; modelled as an error value.) -/
def addEpsilonConstraints (p : Problem) (symbol : String)
    (constraintSymbols : List (String × String)) (objectiveSymbol : String)
    (epsilons : List (String × ℚ)) :
    Except ScalarizationError (Problem × String × List String) :=
  if ¬ (p.objectives.map (fun o => o.symbol)).contains objectiveSymbol then
    .error .missingComponent
  else
    match addObjectiveAsScalarization p symbol objectiveSymbol with
    | .error e => .error e
    | .ok pr =>
      let rest := p.objectives.filter fun o => ¬ o.symbol = objectiveSymbol
      if ¬ rest.all (fun o =>
          (dlookup constraintSymbols o.symbol).isSome && (dlookup epsilons o.symbol).isSome) then
        .error .missingKey
      else
        let constraints := rest.map fun o =>
          Constraint.mk ("Epsilon for " ++ o.symbol)
            ((dlookup constraintSymbols o.symbol).getD "")
            .LTE
            (.add (.sym (o.symbol ++ "_min")) (.neg (.lit ((dlookup epsilons o.symbol).getD 0))))
        .ok (pr.1.addConstraints constraints, symbol, constraints.map fun c => c.symbol)

/-- `add_scalarization_function`: wraps a caller-supplied expression
(the source takes it as infix text; the tree stands for the parsed
text) and never raises. -/
def addScalarizationFunction (p : Problem) (func : Expr) (symbol : String)
    (name : Option String := none) : Problem × String :=
  (p.addScalarization ⟨name.getD symbol, symbol, func⟩, symbol)

/-- `add_lte_constraints`.  The length guard mirrors the source's
conjunctive condition verbatim; indexing `symbols[i]` / `names[i]` past
a too-short list raises `IndexError` in Python, modelled as an error
value. -/
def addLteConstraints (p : Problem) (funcs : List Expr) (symbols : List String)
    (names : Option (List (Option String)) := none) : Except ScalarizationError Problem :=
  if funcs.length ≠ symbols.length ∧ names ≠ none ∧ (names.getD []).length ≠ funcs.length then
    .error .lengthMismatch
  else
    let resolvedNames : List (Option String) :=
      match names with
      | none => symbols.map some
      | some ns => ns
    if funcs.length ≤ symbols.length ∧ funcs.length ≤ resolvedNames.length then
      .ok { p with constraints := some ((p.constraints.getD []) ++
        (List.range funcs.length).map fun i =>
          ⟨(resolvedNames.getD i none).getD (symbols.getD i ""),
            symbols.getD i "", .LTE, funcs.getD i (.lit 0)⟩) }
    else .error .indexOutOfRange

/-! ## NIMBUS orchestration (`desdeo/mcdm/nimbus.py`) -/

inductive NimbusError where
  | undefinedIdealOrNadir
  | missingReferenceEntries
  | missingCurrentEntries
  | numDesiredTooSmall
  /-- the `NameError` the fallthrough branch of `infer_classifications`
  hits on the first iteration, where `classification` is still unbound -/
  | unboundClassification
  deriving DecidableEq, Repr

/-- A NIMBUS classification: class tag and optional attached level. -/
abbrev Cls := String × Option ℚ

/-- The `if/elif` ladder of `infer_classifications` for one objective:
`some` of the singleton-dict entry it assigns, or `none` on the final
`else` fallthrough (which assigns nothing).  `ideal`/`nadir` are read
directly off the objective; the earlier guard has ensured they are
defined (`np.isclose` against `None` would raise `TypeError`). -/
def stepClassification (o : Objective) (currentValue referenceValue : ℚ) :
    Option (String × Cls) :=
  if isClose referenceValue (o.nadir.getD 0) then some (o.symbol, ("0", none))
  else if isClose referenceValue (o.ideal.getD 0) then some (o.symbol, ("<", none))
  else if isClose referenceValue currentValue then some (o.symbol, ("=", none))
  else if o.maximize = false ∧ referenceValue < currentValue then
    some (o.symbol, ("<=", some referenceValue))
  else if o.maximize = false ∧ referenceValue > currentValue then
    some (o.symbol, (">=", some referenceValue))
  else if o.maximize = true ∧ referenceValue < currentValue then
    some (o.symbol, (">=", some referenceValue))
  else if o.maximize = true ∧ referenceValue > currentValue then
    some (o.symbol, ("<=", some referenceValue))
  else none

/-- The classification loop.  On the fallthrough the source leaves the
loop variable `classification` holding the previous iteration's
singleton dict, which `classifications |= classification` then re-adds
(a `NameError` on the first iteration); the `last` accumulator models
that stale variable. -/
def inferLoop (current reference : List (String × ℚ)) :
    List Objective → List (String × Cls) → Option (String × Cls) →
    Except NimbusError (List (String × Cls))
  | [], acc, _ => .ok acc
  | o :: rest, acc, last =>
    let rv := (dlookup reference o.symbol).getD 0
    let cv := (dlookup current o.symbol).getD 0
    match stepClassification o cv rv with
    | some entry => inferLoop current reference rest (dictInsert acc entry) (some entry)
    | none =>
      match last with
      | some stale => inferLoop current reference rest (dictInsert acc stale) (some stale)
      | none => .error .unboundClassification

/-- `infer_classifications`. -/
def inferClassifications (p : Problem)
    (currentObjectives referencePoint : List (String × ℚ)) :
    Except NimbusError (List (String × Cls)) :=
  if ¬ idealNadirDefined p then .error .undefinedIdealOrNadir
  else if ¬ p.objectives.all (fun o => (dlookup referencePoint o.symbol).isSome) then
    .error .missingReferenceEntries
  else if ¬ p.objectives.all (fun o => (dlookup currentObjectives o.symbol).isSome) then
    .error .missingCurrentEntries
  else inferLoop currentObjectives referencePoint p.objectives [] none

/-- A solver result (spec §6): the external backend's answer. -/
structure SolverResults where
  success : Bool := true
  optimalVariables : List (String × ℚ) := []
  optimalObjectives : List (String × ℚ) := []
  message : String := ""
  deriving DecidableEq, Repr, Inhabited

/-- Apply an opaque solver to a `(problem, target)` pair, as
`init_solver(problem_w_sf).solve(target)` does.  Solver options are
passed through opaquely (spec §6) and do not influence the shape of the
orchestration, so they are elided from the solver capability. -/
def solveTarget (solve : Problem → String → SolverResults) (pr : Problem × String) :
    SolverResults :=
  solve pr.1 pr.2

/-- `solve_sub_problems`.  The four scalarization builders it dispatches
to (`add_nimbus_sf_diff`, `add_stom_sf_diff`, `add_asf_diff`,
`add_guess_sf_diff` — the problem is treated as smooth) and the solver
are external to the analysed sources and enter as function
parameters. -/
def solveSubProblems (p : Problem)
    (currentObjectives referencePoint : List (String × ℚ)) (numDesired : ℤ)
    (addNimbusSf : Problem → String → List (String × Cls) → List (String × ℚ) → Problem × String)
    (addStomSf addAsfD addGuessSf : Problem → String → List (String × ℚ) → Problem × String)
    (solve : Problem → String → SolverResults) :
    Except NimbusError (List SolverResults) :=
  if ¬ idealNadirDefined p then .error .undefinedIdealOrNadir
  else if ¬ p.objectives.all (fun o => (dlookup referencePoint o.symbol).isSome) then
    .error .missingReferenceEntries
  else if ¬ p.objectives.all (fun o => (dlookup currentObjectives o.symbol).isSome) then
    .error .missingCurrentEntries
  else do
    let classifications ← inferClassifications p currentObjectives referencePoint
    let solutions := [solveTarget solve (addNimbusSf p "nimbus_sf" classifications currentObjectives)]
    let solutions := if 1 < numDesired then
        solutions ++ [solveTarget solve (addStomSf p "stom_sf" referencePoint)]
      else solutions
    let solutions := if 2 < numDesired then
        solutions ++ [solveTarget solve (addAsfD p "asf" referencePoint)]
      else solutions
    let solutions := if 3 < numDesired then
        solutions ++ [solveTarget solve (addGuessSf p "guess_sf" referencePoint)]
      else solutions
    return solutions

/-- Modelled from the spec: `variable_dict_to_numpy_array` lays a
decision dict out in the problem's variable order. -/
def variableDictToArray (p : Problem) (d : List (String × ℚ)) : List ℚ :=
  p.vars.map fun v => (dlookup d v.symbol).getD 0

/-- The interior step points of `solve_intermediate_solutions`:
`solution_2 + i * (solution_1 - solution_2)/(2 + num_desired)` for
`i = 1..num_desired` (the map index `k` runs over `range num_desired`,
so `i = k + 1` models Python's `range(1, num_desired + 1)`). -/
def intermediatePoints (p : Problem) (solution1 solution2 : List (String × ℚ))
    (numDesired : ℤ) : List (List ℚ) :=
  (List.range numDesired.toNat).map fun (k : ℕ) =>
    List.zipWith (fun a b => b + ((k : ℚ) + 1) * ((a - b) / (2 + (numDesired : ℚ))))
      (variableDictToArray p solution1) (variableDictToArray p solution2)

/-- `solve_intermediate_solutions`.  The generic evaluator (spec §4.2,
one output row per sample point) and the ASF builder/solver are outside
the analysed sources and enter as function parameters
(`evalObjectives` maps one decision vector to its objective dict). -/
def solveIntermediateSolutions (p : Problem)
    (solution1 solution2 : List (String × ℚ)) (numDesired : ℤ)
    (evalObjectives : List ℚ → List (String × ℚ))
    (addAsfD : Problem → String → List (String × ℚ) → Problem × String)
    (solve : Problem → String → SolverResults) :
    Except NimbusError (List SolverResults) :=
  if numDesired < 1 then .error .numDesiredTooSmall
  else
    let referencePoints := (intermediatePoints p solution1 solution2 numDesired).map
      evalObjectives
    .ok (referencePoints.map fun rp => solveTarget solve (addAsfD p "target" rp))

/-- The reference-point completion step of `generate_starting_point`:
every objective missing from the caller's dict is set to its ideal
value, in objective order.  The Python function mutates the caller's
dict in place; the state passing makes that final dict state a return
value. -/
def fillReferencePoint (p : Problem) (referencePoint : List (String × ℚ)) :
    List (String × ℚ) :=
  p.objectives.foldl
    (fun acc o =>
      if (dlookup acc o.symbol).isSome then acc
      else dictInsert acc (o.symbol, ((dlookup p.getIdealPoint o.symbol).getD none).getD 0))
    referencePoint

/-- `generate_starting_point`: returns the solver result paired with
the final state of the caller's `reference_point` dict. -/
def generateStartingPoint (p : Problem) (referencePoint : Option (List (String × ℚ)))
    (addAsfD : Problem → String → List (String × ℚ) → Problem × String)
    (solve : Problem → String → SolverResults) :
    Except NimbusError (SolverResults × List (String × ℚ)) :=
  if ¬ idealNadirDefined p then .error .undefinedIdealOrNadir
  else
    let rp := fillReferencePoint p (referencePoint.getD [])
    .ok (solveTarget solve (addAsfD p "asf" rp), rp)

/-! ## Archive reconciliation (`desdeo/api/routers/NIMBUS.py`)

The solution archive is the `SolutionArchive` table; the database is
modelled as a list of rows, row identity as the position in the list.
The `Preference` table insert of `save_results_to_db` touches a
different table and no archive field the claims mention, so it is not
part of the state here. -/

/-- One `SolutionArchive` row. -/
structure ArchiveEntry where
  user : ℤ
  problem : ℤ
  method : ℤ
  decisionVariables : List ℚ
  objectives : List ℚ
  saved : Bool
  current : Bool
  chosen : Bool
  deriving DecidableEq, Repr, Inhabited

/-- `list(res.optimal_objectives.values())`. -/
def objVector (r : SolverResults) : List ℚ := r.optimalObjectives.map Prod.snd

/-- `read_solutions_from_db`: the rows for `(problem, user, method)`,
as positions into the database list (the Python rows are live objects;
positions model their identity). -/
def readSolutionIdxs (db : List ArchiveEntry) (pid uid mid : ℤ) : List ℕ :=
  (List.range db.length).filter fun i =>
    match db.get? i with
    | some e => (e.problem == pid) && (e.user == uid) && (e.method == mid)
    | none => false

/-- The duplicate sweep at the top of `save_results_to_db`: row `j` is
popped when some earlier row `i` has an `allclose` objective vector. -/
def dedupResults (results : List SolverResults) : List SolverResults :=
  (List.range results.length).filterMap fun j =>
    if (List.range j).all (fun i =>
        ! allCloseList (objVector ((results.get? i).getD default))
            (objVector ((results.get? j).getD default))) then
      results.get? j
    else none

/-- The per-row effect of the old-current reset (`old.current = False`
for every row the problem/user/current query returned). -/
def resetFun (pid uid : ℤ) (e : ArchiveEntry) : ArchiveEntry :=
  if (e.problem == pid) && (e.user == uid) && e.current then { e with current := false }
  else e

/-- The old-current reset: the query filters on problem, user and the
`current` flag — the source has no method filter here. -/
def resetCurrent (db : List ArchiveEntry) (pid uid : ℤ) : List ArchiveEntry :=
  db.map (resetFun pid uid)

/-- One iteration of the result loop of `save_results_to_db`: flag the
first `allclose` previous row as current, else append a novel row with
`saved=False, current=True, chosen=False`.  (`flatten` on the decision
variables is the identity for scalar-valued variables, the only kind in
scope.) -/
def applyResult (prevIdxs : List ℕ) (uid pid mid : ℤ) (db : List ArchiveEntry)
    (res : SolverResults) : List ArchiveEntry :=
  match prevIdxs.find? (fun i =>
      allCloseList (objVector res) (((db.get? i).getD default).objectives)) with
  | some i =>
    match db.get? i with
    | some e => db.set i { e with current := true }
    | none => db
  | none =>
    db ++ [⟨uid, pid, mid, res.optimalVariables.map Prod.snd, objVector res, false, true, false⟩]

/-- `save_results_to_db` as a transformation of the archive state:
dedup the incoming results, reset the old current rows, then flag or
append each result.  `prevIdxs` is the `previous_solutions` list the
caller read before solving.  `res.success` is never consulted. -/
def saveResultsToDb (db : List ArchiveEntry) (uid pid mid : ℤ)
    (results : List SolverResults) (prevIdxs : List ℕ) : List ArchiveEntry :=
  (dedupResults results).foldl (applyResult prevIdxs uid pid mid) (resetCurrent db pid uid)

/-- One orchestration call against the archive, as every router endpoint
performs it: read `previous_solutions` for `(problem, user, method)`,
solve (the results enter as an argument), then `save_results_to_db`. -/
def nimbusSaveStep (db : List ArchiveEntry) (uid pid mid : ℤ)
    (results : List SolverResults) : List ArchiveEntry :=
  saveResultsToDb db uid pid mid results (readSolutionIdxs db pid uid mid)

/-! ## Claim-side formulas

Definitions in this section follow the words of the spec/claims (not
the source); they exist to be compared with the embedded builders. -/

/-- The `_min` synonym of a raw objective value: the value itself for a
minimized objective, its negation for a maximized one (spec §4.3). -/
def minValue (maximize : Bool) (v : ℚ) : ℚ := if maximize then -v else v

/-- The reference value of an objective, in `_min` space. -/
def zMin (referencePoint : List (String × Dec)) (o : Objective) : ℚ :=
  minValue o.maximize ((dlookup referencePoint o.symbol).getD ⟨0, 0⟩).val

/-- The claim's per-objective ASF denominator
`nadir_i_min - (ideal_i_min - δ)`. -/
def denomMin (delta : ℚ) (o : Objective) : ℚ :=
  minValue o.maximize (o.nadir.getD 0) - (minValue o.maximize (o.ideal.getD 0) - delta)

/-- The value the claim asserts for the default (`reference_in_aug =
False`) ASF at an assignment `σ` of the `_min` symbols:
`max_i (f_i_min - z_i_min)/(nadir_i_min - (ideal_i_min - δ)) +
ρ·Σ_i f_i_min/(nadir_i_min - (ideal_i_min - δ))`. -/
def asfClaimValue (p : Problem) (referencePoint : List (String × Dec))
    (delta rho : ℚ) (σ : String → ℚ) : ℚ :=
  maxQ (p.objectives.map fun o =>
    (σ (o.symbol ++ "_min") - zMin referencePoint o) / denomMin delta o) +
  rho * (p.objectives.map fun o => σ (o.symbol ++ "_min") / denomMin delta o).sum

/-- The value claim C5 asserts for the `reference_in_aug = True` ASF:
the same max term, with the reference point also folded into every
augmentation operand as `(f_i_min - z_i_min)/(…)`. -/
def asfAugClaimValue (p : Problem) (referencePoint : List (String × Dec))
    (delta rho : ℚ) (σ : String → ℚ) : ℚ :=
  maxQ (p.objectives.map fun o =>
    (σ (o.symbol ++ "_min") - zMin referencePoint o) / denomMin delta o) +
  rho * (p.objectives.map fun o =>
    (σ (o.symbol ++ "_min") - zMin referencePoint o) / denomMin delta o).sum

/-- What the `reference_in_aug = True` augmentation of `add_asf_nondiff`
actually computes: for a maximized objective the operand matches the
claim (`f_min - z·(-1)`), but for a minimized one the f-string's
`else 1` concatenates the digit `1` to the rendered reference value, so
`Dec.appendOne z` is subtracted instead of `z`. -/
def asfAugActualValue (p : Problem) (referencePoint : List (String × Dec))
    (delta rho : ℚ) (σ : String → ℚ) : ℚ :=
  maxQ (p.objectives.map fun o =>
    (σ (o.symbol ++ "_min") - zMin referencePoint o) / denomMin delta o) +
  rho * (p.objectives.map fun o =>
    (σ (o.symbol ++ "_min") -
      (if o.maximize then zMin referencePoint o
       else ((dlookup referencePoint o.symbol).getD ⟨0, 0⟩).appendOne.val)) /
      denomMin delta o).sum


/-! ## Concrete fixtures for witnesses and counterexamples -/

/-- A two-objective problem: `f_1` minimized with ideal 0 / nadir 10,
`f_2` maximized with ideal 9 / nadir 1 (the spec §8 sign-normalization
example), one decision variable. -/
def probA : Problem :=
  { name := "probA"
    vars := [⟨"x_1", some 0, some 10⟩]
    constants := []
    objectives := [⟨"f_1", false, some 0, some 10⟩, ⟨"f_2", true, some 9, some 1⟩] }

/-- A single-objective problem: `f_1` minimized, ideal 0, nadir 10. -/
def probMin1 : Problem :=
  { name := "probMin1"
    vars := [⟨"x_1", some 0, some 10⟩]
    constants := []
    objectives := [⟨"f_1", false, some 0, some 10⟩] }

/-- A reference point for `probA` as decimal numerals:
`f_1 = 3.0`, `f_2 = 4.0`. -/
def rpDecA : List (String × Dec) := [("f_1", ⟨30, 1⟩), ("f_2", ⟨40, 1⟩)]

/-- A reference point for `probMin1`: `f_1 = 3.0`. -/
def rpDecMin1 : List (String × Dec) := [("f_1", ⟨30, 1⟩)]

/-- The problem-and-symbol pair `add_asf_nondiff` produces on
`probMin1` with reference value `3.0` and `reference_in_aug=True`. -/
def asfAugOut : Problem × String :=
  (addAsfNondiff probMin1 "asf" rpDecMin1 true (1 / 1000000)
    (1 / 1000000)).toOption.getD (probMin1, "")

/-- A placeholder scalarization builder standing in for an arbitrary
external builder when a theorem is instantiated on concrete data. -/
def constBuilder (p : Problem) (symbol : String) (_rp : List (String × ℚ)) :
    Problem × String :=
  (p, symbol)

/-- Placeholder for the NIMBUS-scalarization builder parameter. -/
def constNimbusBuilder (p : Problem) (symbol : String) (_cls : List (String × Cls))
    (_cur : List (String × ℚ)) : Problem × String :=
  (p, symbol)

/-- Placeholder solver: succeeds with empty data. -/
def constSolve (_p : Problem) (_target : String) : SolverResults := default

/-- Placeholder evaluator mapping a decision vector to an objective
dict (used to instantiate `solveIntermediateSolutions`). -/
def constEval (xs : List ℚ) : List (String × ℚ) := [("f_1", xs.sum)]

/-- The assignment sending every `_min` symbol to `0`. -/
def sigmaZero : String → ℚ := fun _ => 0

/-- A solver result with `success=False`, as an infeasible or
non-convergent backend returns it. -/
def failRes : SolverResults :=
  { success := false
    optimalVariables := [("x_1", 2)]
    optimalObjectives := [("f_1", 5)]
    message := "infeasible" }

/-- Overwrite a result's `success` flag (for stating that the archive
step never consults it). -/
def setSuccess (r : SolverResults) (b : Bool) : SolverResults := { r with success := b }

/-- The archive row at a position (rows are identified by position). -/
def entryAt (d : List ArchiveEntry) (j : ℕ) : ArchiveEntry := (d.get? j).getD default

/-- Row scope of one `(problem, user, method)` archive. -/
def matchesKey (e : ArchiveEntry) (pid uid mid : ℤ) : Prop :=
  e.problem = pid ∧ e.user = uid ∧ e.method = mid

/-- A one-row archive for `(problem 2, user 1, method 3)` whose entry
holds objective vector `[5]` and is not current. -/
def dbB : List ArchiveEntry := [⟨1, 2, 3, [0], [5], false, false, false⟩]

/-- A successful result whose objective vector `[5]` coincides with the
`dbB` entry. -/
def resB : SolverResults := ⟨true, [("x_1", 0)], [("f_1", 5)], ""⟩

/-- Current objective values for `probA`: both at `5`. -/
def curA : List (String × ℚ) := [("f_1", 5), ("f_2", 5)]

/-- A reference point for `probA`: `f_1 = 3` (improve side of the
minimized objective), `f_2 = 4` (impair side of the maximized one). -/
def rpA : List (String × ℚ) := [("f_1", 3), ("f_2", 4)]

/-- The classifications `infer_classifications` produces for `probA`
with `curA` and `rpA`. -/
def clsA : List (String × Cls) := [("f_1", ("<=", some 3)), ("f_2", (">=", some 4))]

/-! ## Helper lemmas -/

theorem isClose_self (a : ℚ) : isClose a a = true := by
  simp only [isClose, sub_self, abs_zero, decide_eq_true_eq]
  have h1 : (0:ℚ) < atol := by norm_num [atol]
  have h2 : (0:ℚ) ≤ rtol * |a| := mul_nonneg (by norm_num [rtol]) (abs_nonneg a)
  linarith

theorem allCloseList_self (xs : List ℚ) : allCloseList xs xs = true := by
  induction xs with
  | nil => rfl
  | cons x xs ih =>
    simp only [allCloseList, List.zip_cons_cons, List.all_cons, List.length_cons,
      Bool.and_eq_true, decide_eq_true_eq, List.all_eq_true] at ih ⊢
    exact ⟨by simp, isClose_self x, fun p hp => ih.2 p hp⟩

theorem dictInsert_of_not_mem {α : Type} (d : List (String × α)) (kv : String × α)
    (h : dlookup d kv.1 = none) : dictInsert d kv = d ++ [kv] := by
  induction d with
  | nil => rfl
  | cons p rest ih =>
    obtain ⟨k, v⟩ := p
    simp only [dlookup, List.lookup] at h
    by_cases hk : kv.1 = k
    · simp [hk] at h
    · have : (kv.1 == k) = false := beq_false_of_ne hk
      rw [this] at h
      simp only [dictInsert, List.cons_append]
      rw [if_neg (fun hh => hk hh.symm)]
      rw [ih h]

theorem dlookup_append_right {α : Type} (d d' : List (String × α)) (k : String)
    (h : dlookup d k = none) : dlookup (d ++ d') k = dlookup d' k := by
  induction d with
  | nil => simp [dlookup]
  | cons p rest ih =>
    obtain ⟨pk, pv⟩ := p
    by_cases hk : k = pk
    · simp [dlookup, List.lookup, hk] at h
    · simp only [dlookup, List.lookup, List.cons_append, beq_false_of_ne hk] at h ⊢
      exact ih h

theorem dlookup_append_left {α : Type} (d d' : List (String × α)) (k : String) (v : α)
    (h : dlookup d k = some v) : dlookup (d ++ d') k = some v := by
  induction d with
  | nil => simp [dlookup] at h
  | cons p rest ih =>
    obtain ⟨pk, pv⟩ := p
    by_cases hk : k = pk
    · simpa [dlookup, List.lookup, hk] using h
    · simp only [dlookup, List.lookup, List.cons_append, beq_false_of_ne hk] at h ⊢
      exact ih h

/-- Looking a mapped objective up in the dict its list comprehension
builds: with pairwise-distinct keys the lookup returns that
objective's own entry. -/
theorem dlookup_map_of_nodup {β : Type} {α : Type} (key : α → String) (f : α → β)
    (l : List α) (hnd : (l.map key).Nodup) (a : α) (ha : a ∈ l) :
    dlookup (l.map fun x => (key x, f x)) (key a) = some (f a) := by
  induction l with
  | nil => simp at ha
  | cons x rest ih =>
    simp only [List.map_cons, List.nodup_cons] at hnd
    rcases List.mem_cons.mp ha with h | h
    · subst h
      simp [dlookup, List.lookup]
    · have hne : key a ≠ key x := fun he => hnd.1 (he ▸ List.mem_map_of_mem key h)
      simp only [dlookup, List.lookup, List.map_cons]
      rw [beq_false_of_ne hne]
      exact ih hnd.2 h

theorem evalList_eq_map (σ : String → ℚ) (es : List Expr) :
    evalList σ es = es.map (evalE σ) := by
  induction es with
  | nil => rfl
  | cons e rest ih => simp [evalList, ih]

theorem evalE_maxL (σ : String → ℚ) (es : List Expr) :
    evalE σ (.maxL es) = maxQ (es.map (evalE σ)) := by
  rw [evalE, evalList_eq_map]

theorem evalE_joinAdd (σ : String → ℚ) (es : List Expr) :
    evalE σ (joinAdd es) = (es.map (evalE σ)).sum := by
  cases es with
  | nil => simp [joinAdd, evalE]
  | cons e rest =>
    simp only [joinAdd, List.map_cons, List.sum_cons]
    induction rest generalizing e with
    | nil => simp
    | cons f rest ih =>
      simp only [List.foldl_cons, List.map_cons, List.sum_cons]
      rw [ih (.add e f)]
      simp [evalE]
      ring

/-! ### The reference-point fill loop (for C10) -/

theorem fillFold_preserves (g : Objective → ℚ) (objs : List Objective)
    (acc : List (String × ℚ)) (s : String) (v : ℚ) (h : dlookup acc s = some v) :
    dlookup (objs.foldl
      (fun a o => if (dlookup a o.symbol).isSome then a else dictInsert a (o.symbol, g o))
      acc) s = some v := by
  induction objs generalizing acc with
  | nil => exact h
  | cons o rest ih =>
    simp only [List.foldl_cons]
    by_cases hs : (dlookup acc o.symbol).isSome
    · rw [if_pos hs]; exact ih acc h
    · rw [if_neg hs]
      apply ih
      rw [dictInsert_of_not_mem _ _ (Option.not_isSome_iff_eq_none.mp hs)]
      exact dlookup_append_left _ _ _ _ h

theorem fillFold_keys (g : Objective → ℚ) (objs : List Objective)
    (acc : List (String × ℚ)) (s : String)
    (h : dlookup (objs.foldl
      (fun a o => if (dlookup a o.symbol).isSome then a else dictInsert a (o.symbol, g o))
      acc) s ≠ none) :
    dlookup acc s ≠ none ∨ s ∈ objs.map (fun o => o.symbol) := by
  induction objs generalizing acc with
  | nil => exact Or.inl h
  | cons o rest ih =>
    simp only [List.foldl_cons] at h
    by_cases hs : (dlookup acc o.symbol).isSome
    · rw [if_pos hs] at h
      rcases ih acc h with h' | h'
      · exact Or.inl h'
      · exact Or.inr (by simp [h'])
    · rw [if_neg hs] at h
      rw [dictInsert_of_not_mem _ _ (Option.not_isSome_iff_eq_none.mp hs)] at h
      rcases ih _ h with h' | h'
      · by_cases hsa : dlookup acc s = none
        · rw [dlookup_append_right _ _ _ hsa] at h'
          by_cases hss : s = o.symbol
          · exact Or.inr (by simp [hss])
          · exfalso
            apply h'
            simp [dlookup, List.lookup, beq_false_of_ne hss]
        · exact Or.inl hsa
      · exact Or.inr (by simp [h'])

theorem fillFold_complete (g : Objective → ℚ) (objs : List Objective)
    (acc : List (String × ℚ)) (hnd : (objs.map (fun o => o.symbol)).Nodup)
    (o : Objective) (ho : o ∈ objs) (hmiss : dlookup acc o.symbol = none) :
    dlookup (objs.foldl
      (fun a x => if (dlookup a x.symbol).isSome then a else dictInsert a (x.symbol, g x))
      acc) o.symbol = some (g o) := by
  induction objs generalizing acc with
  | nil => simp at ho
  | cons x rest ih =>
    simp only [List.map_cons, List.nodup_cons] at hnd
    simp only [List.foldl_cons]
    rcases List.mem_cons.mp ho with he | he
    · subst he
      rw [if_neg (by simp [hmiss])]
      rw [dictInsert_of_not_mem _ _ hmiss]
      apply fillFold_preserves
      rw [dlookup_append_right _ _ _ hmiss]
      simp [dlookup, List.lookup]
    · have hne : o.symbol ≠ x.symbol := fun he' =>
        hnd.1 (he' ▸ List.mem_map_of_mem (fun o => o.symbol) he)
      by_cases hs : (dlookup acc x.symbol).isSome
      · rw [if_pos hs]
        exact ih acc hnd.2 he hmiss
      · rw [if_neg hs]
        apply ih _ hnd.2 he
        rw [dictInsert_of_not_mem _ _ (Option.not_isSome_iff_eq_none.mp hs)]
        rw [dlookup_append_right _ _ _ hmiss]
        simp [dlookup, List.lookup, beq_false_of_ne hne]

/-! ## Claim C10 -/

/-- Claim C10: `generate_starting_point` completes and, in its
reference-point completion step, leaves the caller's dict with an entry
for every objective of the problem — each entry that was missing before
the call set to that objective's ideal value, pre-existing entries
untouched, and no other entries added.  (The in-place mutation is
rendered by state passing: the final dict state is returned.) -/
theorem generate_starting_point_fills_reference_point
    (p : Problem) (rp : List (String × ℚ))
    (addAsfD : Problem → String → List (String × ℚ) → Problem × String)
    (solve : Problem → String → SolverResults)
    (hnd : (p.objectives.map (fun o => o.symbol)).Nodup)
    (hdef : idealNadirDefined p = true) :
    generateStartingPoint p (some rp) addAsfD solve =
      .ok (solveTarget solve (addAsfD p "asf" (fillReferencePoint p rp)),
        fillReferencePoint p rp) ∧
    (∀ o ∈ p.objectives, ∃ v, dlookup (fillReferencePoint p rp) o.symbol = some v ∧
      (dlookup rp o.symbol = some v ∨ (dlookup rp o.symbol = none ∧ o.ideal = some v))) ∧
    (∀ s v, dlookup rp s = some v → dlookup (fillReferencePoint p rp) s = some v) ∧
    (∀ s, dlookup (fillReferencePoint p rp) s ≠ none →
      dlookup rp s ≠ none ∨ s ∈ p.objectives.map (fun o => o.symbol)) := by
  refine ⟨?_, ?_, ?_, ?_⟩
  · simp [generateStartingPoint, hdef]
  · intro o ho
    have hio : o.ideal.isSome := by
      have := (List.all_eq_true.mp hdef) o ho
      exact (Bool.and_eq_true _ _ ▸ this).1
    obtain ⟨w, hw⟩ := Option.isSome_iff_exists.mp hio
    have hg : ((dlookup p.getIdealPoint o.symbol).getD none).getD 0 = w := by
      have : dlookup p.getIdealPoint o.symbol = some o.ideal := by
        unfold Problem.getIdealPoint
        exact dlookup_map_of_nodup (fun o => o.symbol) (fun o => o.ideal) p.objectives hnd o ho
      rw [this, hw]
      rfl
    by_cases hm : dlookup rp o.symbol = none
    · refine ⟨w, ?_, Or.inr ⟨hm, hw⟩⟩
      unfold fillReferencePoint
      have := fillFold_complete
        (fun x => ((dlookup p.getIdealPoint x.symbol).getD none).getD 0)
        p.objectives rp hnd o ho hm
      rw [this]
      exact congrArg some hg
    · obtain ⟨v, hv⟩ := Option.ne_none_iff_exists'.mp hm
      refine ⟨v, ?_, Or.inl hv⟩
      unfold fillReferencePoint
      exact fillFold_preserves _ p.objectives rp o.symbol v hv
  · intro s v hv
    unfold fillReferencePoint
    exact fillFold_preserves _ p.objectives rp s v hv
  · intro s hs
    unfold fillReferencePoint at hs
    exact fillFold_keys _ p.objectives rp s hs

/-- Witness for C10 on concrete data: `probA` with the partial dict
`{f_1: 5}` — the pre-existing entry survives and the missing `f_2` is
filled with its ideal value `9`. -/
theorem generate_starting_point_fills_reference_point_witness :
    dlookup (fillReferencePoint probA [("f_1", (5 : ℚ))]) "f_1" = some 5 := by
  exact (generate_starting_point_fills_reference_point probA [("f_1", 5)]
    constBuilder constSolve (by decide) (by decide)).2.2.1 "f_1" 5 (by rfl)

/-! ## Claim C9 -/

/-- Claim C9: every scalarization builder is non-mutating — the input
`Problem` value is untouched (inherent in the value semantics of the
embedding: each builder is a pure function of the input) — and on
success the returned `Problem` carries all of the original's variables,
constants, objectives, constraints, extra functions and scalarizations
plus the added scalarization (plus, for the constraint-adding builders,
the added constraints), with the returned target symbol equal to the
`symbol` argument. -/
theorem scalarization_builders_pure :
    (∀ (p : Problem) (s : String) (rp : List (String × Dec)) (ria : Bool) (dl rh : ℚ)
        (out : Problem × String), addAsfNondiff p s rp ria dl rh = .ok out →
      out.2 = s ∧ out.1.name = p.name ∧ out.1.vars = p.vars ∧
      out.1.constants = p.constants ∧ out.1.objectives = p.objectives ∧
      out.1.constraints = p.constraints ∧ out.1.extraFuncs = p.extraFuncs ∧
      ∃ sf, out.1.scalarizations = p.scalarizations ++ [sf] ∧ sf.symbol = s) ∧
    (∀ (p : Problem) (s : String) (rp w : List (String × ℚ)) (ria : Bool) (rh : ℚ)
        (out : Problem × String), addAsfGenericNondiff p s rp w ria rh = .ok out →
      out.2 = s ∧ out.1.name = p.name ∧ out.1.vars = p.vars ∧
      out.1.constants = p.constants ∧ out.1.objectives = p.objectives ∧
      out.1.constraints = p.constraints ∧ out.1.extraFuncs = p.extraFuncs ∧
      ∃ sf, out.1.scalarizations = p.scalarizations ++ [sf] ∧ sf.symbol = s) ∧
    (∀ (p : Problem) (s : String) (w : List (String × ℚ)) (out : Problem × String),
        addWeightedSums p s w = .ok out →
      out.2 = s ∧ out.1.name = p.name ∧ out.1.vars = p.vars ∧
      out.1.constants = p.constants ∧ out.1.objectives = p.objectives ∧
      out.1.constraints = p.constraints ∧ out.1.extraFuncs = p.extraFuncs ∧
      ∃ sf, out.1.scalarizations = p.scalarizations ++ [sf] ∧ sf.symbol = s) ∧
    (∀ (p : Problem) (s os : String) (out : Problem × String),
        addObjectiveAsScalarization p s os = .ok out →
      out.2 = s ∧ out.1.name = p.name ∧ out.1.vars = p.vars ∧
      out.1.constants = p.constants ∧ out.1.objectives = p.objectives ∧
      out.1.constraints = p.constraints ∧ out.1.extraFuncs = p.extraFuncs ∧
      ∃ sf, out.1.scalarizations = p.scalarizations ++ [sf] ∧ sf.symbol = s) ∧
    (∀ (p : Problem) (s : String) (cs : List (String × String)) (os : String)
        (eps : List (String × ℚ)) (out : Problem × String × List String),
        addEpsilonConstraints p s cs os eps = .ok out →
      out.2.1 = s ∧ out.1.name = p.name ∧ out.1.vars = p.vars ∧
      out.1.constants = p.constants ∧ out.1.objectives = p.objectives ∧
      out.1.extraFuncs = p.extraFuncs ∧
      (∃ sf, out.1.scalarizations = p.scalarizations ++ [sf] ∧ sf.symbol = s) ∧
      (∃ added, out.1.constraints = some (p.constraints.getD [] ++ added) ∧
        out.2.2 = added.map (fun c => c.symbol))) ∧
    (∀ (p : Problem) (f : Expr) (s : String) (n : Option String),
      (addScalarizationFunction p f s n).2 = s ∧
      (addScalarizationFunction p f s n).1.name = p.name ∧
      (addScalarizationFunction p f s n).1.vars = p.vars ∧
      (addScalarizationFunction p f s n).1.constants = p.constants ∧
      (addScalarizationFunction p f s n).1.objectives = p.objectives ∧
      (addScalarizationFunction p f s n).1.constraints = p.constraints ∧
      (addScalarizationFunction p f s n).1.extraFuncs = p.extraFuncs ∧
      ∃ sf, (addScalarizationFunction p f s n).1.scalarizations =
        p.scalarizations ++ [sf] ∧ sf.symbol = s) ∧
    (∀ (p : Problem) (funcs : List Expr) (syms : List String)
        (names : Option (List (Option String))) (out : Problem),
        addLteConstraints p funcs syms names = .ok out →
      out.name = p.name ∧ out.vars = p.vars ∧ out.constants = p.constants ∧
      out.objectives = p.objectives ∧ out.extraFuncs = p.extraFuncs ∧
      out.scalarizations = p.scalarizations ∧
      ∃ added, out.constraints = some (p.constraints.getD [] ++ added) ∧
        added.length = funcs.length) := by
  refine ⟨?_, ?_, ?_, ?_, ?_, ?_, ?_⟩
  · intro p s rp ria dl rh out h
    simp only [addAsfNondiff] at h
    repeat' split at h
    all_goals first
      | exact Except.noConfusion h
      | (simp only [Except.ok.injEq] at h
         subst h
         exact ⟨rfl, rfl, rfl, rfl, rfl, rfl, rfl, _, rfl, rfl⟩)
  · intro p s rp w ria rh out h
    simp only [addAsfGenericNondiff] at h
    repeat' split at h
    all_goals first
      | exact Except.noConfusion h
      | (simp only [Except.ok.injEq] at h
         subst h
         exact ⟨rfl, rfl, rfl, rfl, rfl, rfl, rfl, _, rfl, rfl⟩)
  · intro p s w out h
    simp only [addWeightedSums] at h
    repeat' split at h
    all_goals first
      | exact Except.noConfusion h
      | (simp only [Except.ok.injEq] at h
         subst h
         exact ⟨rfl, rfl, rfl, rfl, rfl, rfl, rfl, _, rfl, rfl⟩)
  · intro p s os out h
    simp only [addObjectiveAsScalarization] at h
    repeat' split at h
    all_goals first
      | exact Except.noConfusion h
      | (simp only [Except.ok.injEq] at h
         subst h
         exact ⟨rfl, rfl, rfl, rfl, rfl, rfl, rfl, _, rfl, rfl⟩)
  · intro p s cs os eps out h
    simp only [addEpsilonConstraints] at h
    split at h
    · exact Except.noConfusion h
    · split at h
      · exact Except.noConfusion h
      · rename_i pr heq
        have hpr : pr = (p.addScalarization
            ⟨"Objective " ++ os, s, .mul (.lit 1) (.sym (os ++ "_min"))⟩, s) := by
          simp only [addObjectiveAsScalarization] at heq
          split at heq
          · exact Except.noConfusion heq
          · injection heq with heq
            exact heq.symm
        subst hpr
        split at h
        · exact Except.noConfusion h
        · simp only [Except.ok.injEq] at h
          subst h
          exact ⟨rfl, rfl, rfl, rfl, rfl, rfl, ⟨_, rfl, rfl⟩, _, rfl, rfl⟩
  · intro p f s n
    exact ⟨rfl, rfl, rfl, rfl, rfl, rfl, rfl, _, rfl, rfl⟩
  · intro p funcs syms names out h
    simp only [addLteConstraints] at h
    repeat' split at h
    all_goals first
      | exact Except.noConfusion h
      | (simp only [Except.ok.injEq] at h
         subst h
         exact ⟨rfl, rfl, rfl, rfl, rfl, rfl, _, rfl, by simp⟩)

/-- Witness for C9: a concrete successful run of `add_asf_nondiff` on
`probMin1` returns the requested target symbol. -/
theorem scalarization_builders_pure_witness :
    ((addAsfNondiff probMin1 "asf" rpDecMin1 false (1 / 1000000) (1 / 1000000)).map
      (fun out => out.2)) = .ok "asf" := by
  have h : addAsfNondiff probMin1 "asf" rpDecMin1 false (1 / 1000000) (1 / 1000000) =
      .ok ((addAsfNondiff probMin1 "asf" rpDecMin1 false (1 / 1000000)
        (1 / 1000000)).toOption.getD (probMin1, "")) := by rfl
  rw [h]
  simp only [Except.map]
  exact congrArg Except.ok
    ((scalarization_builders_pure.1 probMin1 "asf" rpDecMin1 false _ _ _ h).1)

/-- The classifications on the concrete fixture (`probA`, `curA`,
`rpA`) come out as `clsA`. -/
theorem inferClassifications_probA : inferClassifications probA curA rpA = Except.ok clsA := by
  norm_num [inferClassifications, inferLoop, stepClassification, isClose, atol, rtol,
    idealNadirDefined, dlookup, List.lookup, probA, curA, rpA, clsA, dictInsert,
    show (("f_1" : String) == "f_1") = true from rfl,
    show (("f_2" : String) == "f_1") = false from rfl,
    show (("f_2" : String) == "f_2") = true from rfl,
    show ¬("f_1" : String) = "f_2" from by decide,
    show ¬("f_2" : String) = "f_1" from by decide]

/-! ## Claim C2 -/

/-- Claim C2: with defined ideal/nadir points and complete
reference/current dicts, `solve_sub_problems` returns exactly
`min(num_desired, 4)` results for `num_desired ∈ [1,4]`: always the
NIMBUS scalarization built from the inferred classifications, for
`num_desired>1` additionally STOM built from the raw reference point
(ignoring the classifications), for `>2` additionally ASF, for `>3`
additionally GUESS, in the fixed order [NIMBUS, STOM, ASF, GUESS]. -/
theorem solve_sub_problems_order
    (p : Problem) (cur rp : List (String × ℚ)) (n : ℤ)
    (addNimbusSf : Problem → String → List (String × Cls) → List (String × ℚ) → Problem × String)
    (addStomSf addAsfD addGuessSf : Problem → String → List (String × ℚ) → Problem × String)
    (solve : Problem → String → SolverResults)
    (cls : List (String × Cls))
    (hdef : idealNadirDefined p = true)
    (hrp : (p.objectives.all fun o => (dlookup rp o.symbol).isSome) = true)
    (hcur : (p.objectives.all fun o => (dlookup cur o.symbol).isSome) = true)
    (hcls : inferClassifications p cur rp = .ok cls)
    (h1 : 1 ≤ n) (h4 : n ≤ 4) :
    solveSubProblems p cur rp n addNimbusSf addStomSf addAsfD addGuessSf solve =
      .ok (List.take n.toNat
        [solveTarget solve (addNimbusSf p "nimbus_sf" cls cur),
         solveTarget solve (addStomSf p "stom_sf" rp),
         solveTarget solve (addAsfD p "asf" rp),
         solveTarget solve (addGuessSf p "guess_sf" rp)]) ∧
    (List.take n.toNat
      [solveTarget solve (addNimbusSf p "nimbus_sf" cls cur),
       solveTarget solve (addStomSf p "stom_sf" rp),
       solveTarget solve (addAsfD p "asf" rp),
       solveTarget solve (addGuessSf p "guess_sf" rp)]).length = min n.toNat 4 := by
  constructor
  · simp only [solveSubProblems]
    rw [if_neg (by simp [hdef]), if_neg (by simp [hrp]), if_neg (by simp [hcur])]
    simp only [bind, Except.bind, hcls]
    interval_cases n <;> simp [List.take, pure, Except.pure]
  · interval_cases n <;> simp [List.take]

/-- Witness for C2 on `probA` with `num_desired = 2`: exactly the
NIMBUS and STOM results, in that order. -/
theorem solve_sub_problems_order_witness :
    solveSubProblems probA curA rpA 2 constNimbusBuilder constBuilder constBuilder
      constBuilder constSolve =
      .ok (List.take (2 : ℤ).toNat
        [solveTarget constSolve (constNimbusBuilder probA "nimbus_sf" clsA curA),
         solveTarget constSolve (constBuilder probA "stom_sf" rpA),
         solveTarget constSolve (constBuilder probA "asf" rpA),
         solveTarget constSolve (constBuilder probA "guess_sf" rpA)]) :=
  (solve_sub_problems_order probA curA rpA 2 constNimbusBuilder constBuilder constBuilder
    constBuilder constSolve clsA (by decide) (by decide) (by decide)
    inferClassifications_probA (by decide) (by decide)).1

/-! ## Claim C6 (corrected) -/

/-- Counterexample to C6 as stated: calling `solve_sub_problems` on a
problem with defined ideal/nadir and complete points but
`num_desired = 0` (outside `[1,4]`) does **not** raise — it still
builds and solves the NIMBUS sub-problem and returns one result. -/
theorem solve_sub_problems_out_of_range_counterexample :
    solveSubProblems probA curA rpA 0 constNimbusBuilder constBuilder constBuilder
      constBuilder constSolve = .ok [constSolve probA "nimbus_sf"] := by
  simp only [solveSubProblems]
  rw [if_neg (by decide), if_neg (by decide), if_neg (by decide)]
  simp only [bind, Except.bind, inferClassifications_probA]
  norm_num [solveTarget, constNimbusBuilder, pure, Except.pure]

/-- Claim C6 amended: `solve_sub_problems` performs no range check on
`num_desired`; with the other preconditions satisfied it never raises
for out-of-range values — `num_desired ≤ 1` yields exactly the NIMBUS
result and `num_desired ≥ 4` yields all four results. -/
theorem solve_sub_problems_out_of_range_clamps
    (p : Problem) (cur rp : List (String × ℚ)) (n : ℤ)
    (addNimbusSf : Problem → String → List (String × Cls) → List (String × ℚ) → Problem × String)
    (addStomSf addAsfD addGuessSf : Problem → String → List (String × ℚ) → Problem × String)
    (solve : Problem → String → SolverResults)
    (cls : List (String × Cls))
    (hdef : idealNadirDefined p = true)
    (hrp : (p.objectives.all fun o => (dlookup rp o.symbol).isSome) = true)
    (hcur : (p.objectives.all fun o => (dlookup cur o.symbol).isSome) = true)
    (hcls : inferClassifications p cur rp = .ok cls) :
    (n ≤ 1 → solveSubProblems p cur rp n addNimbusSf addStomSf addAsfD addGuessSf solve =
      .ok [solveTarget solve (addNimbusSf p "nimbus_sf" cls cur)]) ∧
    (4 ≤ n → solveSubProblems p cur rp n addNimbusSf addStomSf addAsfD addGuessSf solve =
      .ok [solveTarget solve (addNimbusSf p "nimbus_sf" cls cur),
           solveTarget solve (addStomSf p "stom_sf" rp),
           solveTarget solve (addAsfD p "asf" rp),
           solveTarget solve (addGuessSf p "guess_sf" rp)]) := by
  constructor
  · intro hn
    simp only [solveSubProblems]
    rw [if_neg (by simp [hdef]), if_neg (by simp [hrp]), if_neg (by simp [hcur])]
    simp only [bind, Except.bind, hcls]
    rw [if_neg (by omega), if_neg (by omega), if_neg (by omega)]
    rfl
  · intro hn
    simp only [solveSubProblems]
    rw [if_neg (by simp [hdef]), if_neg (by simp [hrp]), if_neg (by simp [hcur])]
    simp only [bind, Except.bind, hcls]
    rw [if_pos (by omega : (1:ℤ) < n), if_pos (by omega : (2:ℤ) < n),
      if_pos (by omega : (3:ℤ) < n)]
    rfl

/-- Witness for the amended C6: `num_desired = 7` yields the four
results without an error. -/
theorem solve_sub_problems_out_of_range_clamps_witness :
    solveSubProblems probA curA rpA 7 constNimbusBuilder constBuilder constBuilder
      constBuilder constSolve =
      .ok [solveTarget constSolve (constNimbusBuilder probA "nimbus_sf" clsA curA),
           solveTarget constSolve (constBuilder probA "stom_sf" rpA),
           solveTarget constSolve (constBuilder probA "asf" rpA),
           solveTarget constSolve (constBuilder probA "guess_sf" rpA)] :=
  (solve_sub_problems_out_of_range_clamps probA curA rpA 7 constNimbusBuilder constBuilder
    constBuilder constBuilder constSolve clsA (by decide) (by decide) (by decide)
    inferClassifications_probA).2 (by decide)

/-! ## Claim C1 -/

/-- The `if/elif` ladder of `infer_classifications` always fires for
real inputs: it returns a `some` entry keyed by the objective's own
symbol, holding one of the five classes, with the reference value as
the level of `<=` (aspiration) and `>=` (reservation). -/
theorem stepClassification_spec (o : Objective) (cv rv : ℚ) :
    ∃ c : Cls, stepClassification o cv rv = some (o.symbol, c) ∧
      (c = ("0", none) ∨ c = ("<", none) ∨ c = ("=", none) ∨
       c = ("<=", some rv) ∨ c = (">=", some rv)) := by
  unfold stepClassification
  split_ifs with h1 h2 h3 h4 h5 h6 h7
  · exact ⟨("0", none), rfl, by simp⟩
  · exact ⟨("<", none), rfl, by simp⟩
  · exact ⟨("=", none), rfl, by simp⟩
  · exact ⟨("<=", some rv), rfl, by simp⟩
  · exact ⟨(">=", some rv), rfl, by simp⟩
  · exact ⟨(">=", some rv), rfl, by simp⟩
  · exact ⟨("<=", some rv), rfl, by simp⟩
  · exfalso
    rcases lt_trichotomy rv cv with hlt | heq | hgt
    · cases hm : o.maximize
      · exact h4 ⟨hm, hlt⟩
      · exact h6 ⟨hm, hlt⟩
    · exact h3 (heq ▸ isClose_self cv)
    · cases hm : o.maximize
      · exact h5 ⟨hm, hgt⟩
      · exact h7 ⟨hm, hgt⟩

/-- The classification loop never hits its stale-variable fallthrough
on real inputs: it returns the fold of dict inserts of the per-objective
classifications. -/
theorem inferLoop_eq_fold (current reference : List (String × ℚ)) (objs : List Objective)
    (acc : List (String × Cls)) (last : Option (String × Cls)) :
    inferLoop current reference objs acc last = .ok (objs.foldl (fun a o =>
      dictInsert a ((stepClassification o ((dlookup current o.symbol).getD 0)
        ((dlookup reference o.symbol).getD 0)).getD ("", ("0", none)))) acc) := by
  induction objs generalizing acc last with
  | nil => rfl
  | cons o rest ih =>
    simp only [inferLoop, List.foldl_cons]
    obtain ⟨c, hc, -⟩ := stepClassification_spec o ((dlookup current o.symbol).getD 0)
      ((dlookup reference o.symbol).getD 0)
    rw [hc]
    simp only [Option.getD_some]
    exact ih _ _

/-- Folding `dictInsert` over fresh, pairwise-distinct keys appends the
entries in order. -/
theorem foldl_dictInsert_fresh {α β : Type} (l : List α) (ent : α → String × β)
    (acc : List (String × β)) (hfresh : ∀ a ∈ l, dlookup acc (ent a).1 = none)
    (hnd : (l.map fun a => (ent a).1).Nodup) :
    l.foldl (fun d a => dictInsert d (ent a)) acc = acc ++ l.map ent := by
  induction l generalizing acc with
  | nil => simp
  | cons x rest ih =>
    simp only [List.map_cons, List.nodup_cons] at hnd
    simp only [List.foldl_cons, List.map_cons]
    rw [dictInsert_of_not_mem _ _ (hfresh x (List.mem_cons_self x rest))]
    rw [ih (acc ++ [ent x]) ?_ hnd.2]
    · simp
    · intro a ha
      have hne : (ent a).1 ≠ (ent x).1 := fun he =>
        hnd.1 (he ▸ List.mem_map_of_mem (fun a => (ent a).1) ha)
      rw [dlookup_append_right _ _ _ (hfresh a (List.mem_cons_of_mem x ha))]
      simp [dlookup, List.lookup, beq_false_of_ne hne]

/-- Claim C1: for a problem whose objectives all have defined ideal and
nadir values (symbols unique, per the data-model invariant) and
reference/current dicts with an entry per objective, each reference
value componentwise between nadir and ideal, `infer_classifications`
succeeds and assigns to every objective symbol exactly one of the five
classifications — `"0"`, `"<"`, `"="` with no level, `"<="` with the
reference value as aspiration level, `">="` with the reference value as
reservation level — for minimized and maximized objectives alike. -/
theorem infer_classifications_total
    (p : Problem) (cur rp : List (String × ℚ))
    (hnd : (p.objectives.map fun o => o.symbol).Nodup)
    (hdef : ∀ o ∈ p.objectives, o.ideal.isSome ∧ o.nadir.isSome)
    (hrp : ∀ o ∈ p.objectives, (dlookup rp o.symbol).isSome)
    (hcur : ∀ o ∈ p.objectives, (dlookup cur o.symbol).isSome)
    (hbet : ∀ o ∈ p.objectives, ∀ rv, dlookup rp o.symbol = some rv →
      min (o.ideal.getD 0) (o.nadir.getD 0) ≤ rv ∧
        rv ≤ max (o.ideal.getD 0) (o.nadir.getD 0)) :
    ∃ m, inferClassifications p cur rp = .ok m ∧
      ∀ o ∈ p.objectives, ∃ c : Cls, dlookup m o.symbol = some c ∧
        (c = ("0", none) ∨ c = ("<", none) ∨ c = ("=", none) ∨
         c = ("<=", some ((dlookup rp o.symbol).getD 0)) ∨
         c = (">=", some ((dlookup rp o.symbol).getD 0))) := by
  have ent : Objective → String × Cls := fun o =>
    (stepClassification o ((dlookup cur o.symbol).getD 0)
      ((dlookup rp o.symbol).getD 0)).getD ("", ("0", none))
  have hent : ∀ o, (stepClassification o ((dlookup cur o.symbol).getD 0)
      ((dlookup rp o.symbol).getD 0)).getD ("", ("0", none)) =
      (o.symbol, ((stepClassification o ((dlookup cur o.symbol).getD 0)
        ((dlookup rp o.symbol).getD 0)).getD ("", ("0", none))).2) := by
    intro o
    obtain ⟨c, hc, -⟩ := stepClassification_spec o ((dlookup cur o.symbol).getD 0)
      ((dlookup rp o.symbol).getD 0)
    rw [hc]
    rfl
  have hg1 : idealNadirDefined p = true := by
    simp only [idealNadirDefined, List.all_eq_true]
    intro o ho
    simp [(hdef o ho).1, (hdef o ho).2]
  have hg2 : (p.objectives.all fun o => (dlookup rp o.symbol).isSome) = true :=
    List.all_eq_true.mpr hrp
  have hg3 : (p.objectives.all fun o => (dlookup cur o.symbol).isSome) = true :=
    List.all_eq_true.mpr hcur
  refine ⟨p.objectives.foldl (fun a o =>
      dictInsert a ((stepClassification o ((dlookup cur o.symbol).getD 0)
        ((dlookup rp o.symbol).getD 0)).getD ("", ("0", none)))) [], ?_, ?_⟩
  · unfold inferClassifications
    rw [if_neg (by simp [hg1]), if_neg (by simp [hg2]), if_neg (by simp [hg3])]
    exact inferLoop_eq_fold cur rp p.objectives [] none
  · intro o ho
    have hfold := foldl_dictInsert_fresh p.objectives
      (fun o => (stepClassification o ((dlookup cur o.symbol).getD 0)
        ((dlookup rp o.symbol).getD 0)).getD ("", ("0", none)))
      [] (fun a _ => rfl) ?_
    · rw [hfold, List.nil_append]
      have hmap : (p.objectives.map fun o =>
          (stepClassification o ((dlookup cur o.symbol).getD 0)
            ((dlookup rp o.symbol).getD 0)).getD ("", ("0", none))) =
          p.objectives.map (fun o => (o.symbol,
            ((stepClassification o ((dlookup cur o.symbol).getD 0)
              ((dlookup rp o.symbol).getD 0)).getD ("", ("0", none))).2)) :=
        List.map_congr_left fun o _ => hent o
      rw [hmap]
      refine ⟨_, dlookup_map_of_nodup (fun o => o.symbol) _ p.objectives hnd o ho, ?_⟩
      obtain ⟨c, hc, hcases⟩ := stepClassification_spec o ((dlookup cur o.symbol).getD 0)
        ((dlookup rp o.symbol).getD 0)
      rw [hc]
      exact hcases
    · have : (p.objectives.map fun o =>
          ((stepClassification o ((dlookup cur o.symbol).getD 0)
            ((dlookup rp o.symbol).getD 0)).getD ("", ("0", none))).1) =
          p.objectives.map fun o => o.symbol :=
        List.map_congr_left fun o _ => by rw [hent o]
      rw [this]
      exact hnd

/-- Witness for C1 on `probA`, `curA`, `rpA`: the classifications exist
and each objective receives one of the five classes. -/
theorem infer_classifications_total_witness :
    ∃ m, inferClassifications probA curA rpA = .ok m ∧
      ∀ o ∈ probA.objectives, ∃ c : Cls, dlookup m o.symbol = some c ∧
        (c = ("0", none) ∨ c = ("<", none) ∨ c = ("=", none) ∨
         c = ("<=", some ((dlookup rpA o.symbol).getD 0)) ∨
         c = (">=", some ((dlookup rpA o.symbol).getD 0))) := by
  refine infer_classifications_total probA curA rpA (by decide) (by decide) (by decide)
    (by decide) ?_
  intro o ho rv hrv
  fin_cases ho
  · simp only [probA, dlookup, List.lookup, rpA,
      show (("f_1" : String) == "f_1") = true from rfl] at hrv ⊢
    simp only [Option.some.injEq] at hrv
    subst hrv
    norm_num
  · simp only [probA, dlookup, List.lookup, rpA,
      show (("f_2" : String) == "f_1") = false from rfl,
      show (("f_2" : String) == "f_2") = true from rfl] at hrv ⊢
    simp only [Option.some.injEq] at hrv
    subst hrv
    norm_num

/-! ## Claim C3 -/

/-- A scalar interior step point lies strictly between the two
endpoints whenever they differ. -/
theorem interior_between (a b i nn : ℚ) (hi1 : 1 ≤ i) (hin : i ≤ nn) (hab : a ≠ b) :
    min a b < b + i * ((a - b) / (2 + nn)) ∧ b + i * ((a - b) / (2 + nn)) < max a b := by
  have hnn : 1 ≤ nn := le_trans hi1 hin
  have h2n : (0 : ℚ) < 2 + nn := by linarith
  have hv : b + i * ((a - b) / (2 + nn)) = b + i / (2 + nn) * (a - b) := by ring
  have ht0 : 0 < i / (2 + nn) := div_pos (by linarith) h2n
  have ht1 : i / (2 + nn) < 1 := by
    rw [div_lt_one h2n]
    linarith
  rcases lt_or_gt_of_ne hab with h | h
  · rw [min_eq_left h.le, max_eq_right h.le, hv]
    constructor
    · nlinarith [mul_pos (show (0 : ℚ) < 1 - i / (2 + nn) by linarith)
        (show (0 : ℚ) < b - a by linarith)]
    · nlinarith [mul_pos ht0 (show (0 : ℚ) < b - a by linarith)]
  · rw [min_eq_right h.le, max_eq_left h.le, hv]
    constructor
    · nlinarith [mul_pos ht0 (show (0 : ℚ) < a - b by linarith)]
    · nlinarith [mul_pos (show (0 : ℚ) < 1 - i / (2 + nn) by linarith)
        (show (0 : ℚ) < a - b by linarith)]

/-- The distance of a scalar step point from the second endpoint is
monotone in the step index. -/
theorem interior_dist_mono (a b i1 i2 nn : ℚ) (h0 : 0 ≤ i1) (h12 : i1 ≤ i2)
    (h2n : (0 : ℚ) < 2 + nn) :
    |b + i1 * ((a - b) / (2 + nn)) - b| ≤ |b + i2 * ((a - b) / (2 + nn)) - b| := by
  have e1 : b + i1 * ((a - b) / (2 + nn)) - b = i1 * ((a - b) / (2 + nn)) := by ring
  have e2 : b + i2 * ((a - b) / (2 + nn)) - b = i2 * ((a - b) / (2 + nn)) := by ring
  rw [e1, e2, abs_mul, abs_mul]
  apply mul_le_mul_of_nonneg_right ?_ (abs_nonneg _)
  rw [abs_of_nonneg h0, abs_of_nonneg (h0.trans h12)]
  exact h12

/-- Strict version of `interior_dist_mono` on components where the
endpoints differ. -/
theorem interior_dist_strict (a b i1 i2 nn : ℚ) (h0 : 0 ≤ i1) (h12 : i1 < i2)
    (h2n : (0 : ℚ) < 2 + nn) (hab : a ≠ b) :
    |b + i1 * ((a - b) / (2 + nn)) - b| < |b + i2 * ((a - b) / (2 + nn)) - b| := by
  have e1 : b + i1 * ((a - b) / (2 + nn)) - b = i1 * ((a - b) / (2 + nn)) := by ring
  have e2 : b + i2 * ((a - b) / (2 + nn)) - b = i2 * ((a - b) / (2 + nn)) := by ring
  rw [e1, e2, abs_mul, abs_mul]
  apply mul_lt_mul_of_pos_right ?_ ?_
  · rw [abs_of_nonneg h0, abs_of_nonneg (by linarith)]
    exact h12
  · exact abs_pos.mpr (div_ne_zero (sub_ne_zero.mpr hab) (by linarith))

/-- `getD` through `zipWith` in range. -/
theorem zipWith_getD (f : ℚ → ℚ → ℚ) (l1 l2 : List ℚ) (j : ℕ)
    (h1 : j < l1.length) (h2 : j < l2.length) :
    (List.zipWith f l1 l2).getD j 0 = f (l1.getD j 0) (l2.getD j 0) := by
  induction l1 generalizing l2 j with
  | nil => simp at h1
  | cons x xs ih =>
    cases l2 with
    | nil => simp at h2
    | cons y ys =>
      cases j with
      | zero => rfl
      | succ j =>
        simp only [List.zipWith_cons_cons, List.getD_cons_succ]
        exact ih ys j (by simpa using h1) (by simpa using h2)

/-- The `k`-th intermediate point, written out. -/
theorem intermediatePoints_getD (p : Problem) (sol1 sol2 : List (String × ℚ)) (n : ℤ)
    (k : ℕ) (hk : k < n.toNat) :
    (intermediatePoints p sol1 sol2 n).getD k [] =
      List.zipWith (fun a b => b + ((k : ℚ) + 1) * ((a - b) / (2 + (n : ℚ))))
        (variableDictToArray p sol1) (variableDictToArray p sol2) := by
  have hlt : k < ((List.range n.toNat).map fun (k : ℕ) =>
      List.zipWith (fun a b => b + ((k : ℚ) + 1) * ((a - b) / (2 + (n : ℚ))))
        (variableDictToArray p sol1) (variableDictToArray p sol2)).length := by
    simpa using hk
  unfold intermediatePoints
  rw [List.getD_eq_getElem _ _ hlt, List.getElem_map]
  simp only [List.getElem_range]

/-- Claim C3: for distinct solutions and `num_desired = n ≥ 1`,
`solve_intermediate_solutions` computes exactly `n` intermediate
decision points `solution_2 + i·(solution_1 - solution_2)/(n + 2)`,
`i = 1..n` — each strictly between the inputs in every component where
they differ and never equal to either endpoint — evaluates each to an
objective-space reference point, solves one ASF per reference point,
and returns one result per point ordered from nearest `solution_2` to
nearest `solution_1`; for `num_desired < 1` it raises a `NimbusError`
before any computation. -/
theorem solve_intermediate_solutions_spec
    (p : Problem) (sol1 sol2 : List (String × ℚ)) (n : ℤ)
    (evalObjectives : List ℚ → List (String × ℚ))
    (addAsfD : Problem → String → List (String × ℚ) → Problem × String)
    (solve : Problem → String → SolverResults) :
    (n < 1 → solveIntermediateSolutions p sol1 sol2 n evalObjectives addAsfD solve =
      .error .numDesiredTooSmall) ∧
    (1 ≤ n →
      solveIntermediateSolutions p sol1 sol2 n evalObjectives addAsfD solve =
        .ok ((intermediatePoints p sol1 sol2 n).map fun pt =>
          solveTarget solve (addAsfD p "target" (evalObjectives pt))) ∧
      (intermediatePoints p sol1 sol2 n).length = n.toNat ∧
      (∀ k, k < n.toNat → ∀ j, j < p.vars.length →
        (variableDictToArray p sol1).getD j 0 ≠ (variableDictToArray p sol2).getD j 0 →
        min ((variableDictToArray p sol1).getD j 0) ((variableDictToArray p sol2).getD j 0) <
            ((intermediatePoints p sol1 sol2 n).getD k []).getD j 0 ∧
          ((intermediatePoints p sol1 sol2 n).getD k []).getD j 0 <
            max ((variableDictToArray p sol1).getD j 0)
              ((variableDictToArray p sol2).getD j 0)) ∧
      (∀ k, k < n.toNat →
        (∃ j, j < p.vars.length ∧
          (variableDictToArray p sol1).getD j 0 ≠ (variableDictToArray p sol2).getD j 0) →
        (intermediatePoints p sol1 sol2 n).getD k [] ≠ variableDictToArray p sol1 ∧
        (intermediatePoints p sol1 sol2 n).getD k [] ≠ variableDictToArray p sol2) ∧
      (∀ k1 k2, k1 ≤ k2 → k2 < n.toNat → ∀ j, j < p.vars.length →
        |((intermediatePoints p sol1 sol2 n).getD k1 []).getD j 0 -
            (variableDictToArray p sol2).getD j 0| ≤
          |((intermediatePoints p sol1 sol2 n).getD k2 []).getD j 0 -
            (variableDictToArray p sol2).getD j 0|) ∧
      (∀ k1 k2, k1 < k2 → k2 < n.toNat → ∀ j, j < p.vars.length →
        (variableDictToArray p sol1).getD j 0 ≠ (variableDictToArray p sol2).getD j 0 →
        |((intermediatePoints p sol1 sol2 n).getD k1 []).getD j 0 -
            (variableDictToArray p sol2).getD j 0| <
          |((intermediatePoints p sol1 sol2 n).getD k2 []).getD j 0 -
            (variableDictToArray p sol2).getD j 0|)) := by
  have hlen1 : (variableDictToArray p sol1).length = p.vars.length := by
    simp [variableDictToArray]
  have hlen2 : (variableDictToArray p sol2).length = p.vars.length := by
    simp [variableDictToArray]
  constructor
  · intro hn
    simp only [solveIntermediateSolutions]
    rw [if_pos hn]
  · intro hn
    have hcast : ∀ k : ℕ, k < n.toNat → ((k : ℚ) + 1 ≤ (n : ℚ)) := by
      intro k hk
      have : (k : ℤ) + 1 ≤ n := by omega
      exact_mod_cast this
    refine ⟨?_, ?_, ?_, ?_, ?_, ?_⟩
    · simp only [solveIntermediateSolutions]
      rw [if_neg (by omega)]
      simp [List.map_map, Function.comp]
    · simp only [intermediatePoints, List.length_map, List.length_range]
    · intro k hk j hj hne
      rw [intermediatePoints_getD p sol1 sol2 n k hk,
        zipWith_getD _ _ _ j (by omega) (by omega)]
      refine interior_between _ _ _ _ ?_ (hcast k hk) hne
      have h0 : (0 : ℚ) ≤ (k : ℚ) := Nat.cast_nonneg k
      linarith
    · intro k hk hex
      obtain ⟨j, hj, hne⟩ := hex
      have h1 := interior_between ((variableDictToArray p sol1).getD j 0)
        ((variableDictToArray p sol2).getD j 0) ((k : ℚ) + 1) (n : ℚ)
        (by have h0 : (0 : ℚ) ≤ (k : ℚ) := Nat.cast_nonneg k; linarith) (hcast k hk) hne
      have heq : ((intermediatePoints p sol1 sol2 n).getD k []).getD j 0 =
          (variableDictToArray p sol2).getD j 0 + ((k : ℚ) + 1) *
            (((variableDictToArray p sol1).getD j 0 -
              (variableDictToArray p sol2).getD j 0) / (2 + (n : ℚ))) := by
        rw [intermediatePoints_getD p sol1 sol2 n k hk,
          zipWith_getD _ _ _ j (by omega) (by omega)]
      rw [← heq] at h1
      have hne1 : ((intermediatePoints p sol1 sol2 n).getD k []).getD j 0 ≠
          (variableDictToArray p sol1).getD j 0 := by
        rcases lt_or_gt_of_ne hne with h | h
        · have := h1.1
          rw [min_eq_left h.le] at this
          exact (ne_of_gt this)
        · have := h1.2
          rw [max_eq_left h.le] at this
          exact (ne_of_lt this)
      have hne2 : ((intermediatePoints p sol1 sol2 n).getD k []).getD j 0 ≠
          (variableDictToArray p sol2).getD j 0 := by
        rcases lt_or_gt_of_ne hne with h | h
        · have := h1.2
          rw [max_eq_right h.le] at this
          exact (ne_of_lt this)
        · have := h1.1
          rw [min_eq_right h.le] at this
          exact (ne_of_gt this)
      exact ⟨fun hcontra => hne1 (by rw [hcontra]), fun hcontra => hne2 (by rw [hcontra])⟩
    · intro k1 k2 h12 hk2 j hj
      have hk1 : k1 < n.toNat := lt_of_le_of_lt h12 hk2
      rw [intermediatePoints_getD p sol1 sol2 n k1 hk1,
        intermediatePoints_getD p sol1 sol2 n k2 hk2,
        zipWith_getD _ _ _ j (by omega) (by omega),
        zipWith_getD _ _ _ j (by omega) (by omega)]
      have hcn : (1 : ℚ) ≤ (n : ℚ) := by exact_mod_cast hn
      apply interior_dist_mono _ _ _ _ _ (by positivity) ?_ (by linarith)
      have := (Nat.cast_le (α := ℚ)).mpr h12
      linarith
    · intro k1 k2 h12 hk2 j hj hne
      have hk1 : k1 < n.toNat := lt_trans h12 hk2
      rw [intermediatePoints_getD p sol1 sol2 n k1 hk1,
        intermediatePoints_getD p sol1 sol2 n k2 hk2,
        zipWith_getD _ _ _ j (by omega) (by omega),
        zipWith_getD _ _ _ j (by omega) (by omega)]
      have hcn : (1 : ℚ) ≤ (n : ℚ) := by exact_mod_cast hn
      apply interior_dist_strict _ _ _ _ _ (by positivity) ?_ (by linarith) hne
      have := (Nat.cast_lt (α := ℚ)).mpr h12
      linarith

/-- Witness for C3 on `probMin1` with distinct one-variable solutions
`x_1 = 0` and `x_1 = 6`, `num_desired = 1`: the single intermediate
point lies strictly between. -/
theorem solve_intermediate_solutions_spec_witness :
    solveIntermediateSolutions probMin1 [("x_1", (6 : ℚ))] [("x_1", (0 : ℚ))] 1
      constEval constBuilder constSolve =
      .ok ((intermediatePoints probMin1 [("x_1", (6 : ℚ))] [("x_1", (0 : ℚ))] 1).map
        fun pt => solveTarget constSolve (constBuilder probMin1 "target" (constEval pt))) :=
  ((solve_intermediate_solutions_spec probMin1 [("x_1", 6)] [("x_1", 0)] 1
    constEval constBuilder constSolve).2 (by decide)).1

/-! ## Claim C4 -/

/-- The corrected (sign-flipped) optional value agrees with the `_min`
correction of the defaulted value. -/
theorem corrected_getD (mx : Bool) (v : Option ℚ) :
    (if mx then v.map fun x => -x else v).getD 0 = minValue mx (v.getD 0) := by
  cases mx <;> cases v <;> simp [minValue]

/-- The corrected ideal dict resolves, at an objective's own symbol, to
the `_min` ideal value. -/
theorem corrected_ideal_getD (p : Problem)
    (hnd : (p.objectives.map fun o => o.symbol).Nodup) (o : Objective)
    (ho : o ∈ p.objectives) :
    ((dlookup (getCorrectedIdealAndNadir p).1 o.symbol).getD none).getD 0 =
      minValue o.maximize (o.ideal.getD 0) := by
  unfold getCorrectedIdealAndNadir
  rw [dlookup_map_of_nodup (fun o => o.symbol)
    (fun o => if o.maximize then o.ideal.map (fun x => -x) else o.ideal) p.objectives hnd o ho]
  simp only [Option.getD_some]
  exact corrected_getD _ _

/-- The corrected nadir dict resolves, at an objective's own symbol, to
the `_min` nadir value. -/
theorem corrected_nadir_getD (p : Problem)
    (hnd : (p.objectives.map fun o => o.symbol).Nodup) (o : Objective)
    (ho : o ∈ p.objectives) :
    ((dlookup (getCorrectedIdealAndNadir p).2 o.symbol).getD none).getD 0 =
      minValue o.maximize (o.nadir.getD 0) := by
  unfold getCorrectedIdealAndNadir
  rw [dlookup_map_of_nodup (fun o => o.symbol)
    (fun o => if o.maximize then o.nadir.map (fun x => -x) else o.nadir) p.objectives hnd o ho]
  simp only [Option.getD_some]
  exact corrected_getD _ _

/-- Claim C4: with defined ideal/nadir and a complete reference point,
`add_asf_nondiff` with default arguments succeeds and the added
scalarization's expression evaluates, at every assignment of the `_min`
symbols, to
`max_i (f_i_min - z_i_min)/(nadir_i_min - (ideal_i_min - δ)) +
ρ·Σ_i f_i_min/(nadir_i_min - (ideal_i_min - δ))`,
with `δ = ρ = 1e-6` and the `_min` values the negated raw values for
maximized objectives. -/
theorem add_asf_nondiff_value
    (p : Problem) (s : String) (rp : List (String × Dec))
    (hnd : (p.objectives.map fun o => o.symbol).Nodup)
    (hdef : ∀ o ∈ p.objectives, o.ideal.isSome ∧ o.nadir.isSome)
    (hrp : ∀ o ∈ p.objectives, (dlookup rp o.symbol).isSome) :
    (∃ out, addAsfNondiff p s rp false (1 / 1000000) (1 / 1000000) = .ok out) ∧
    (∀ out, addAsfNondiff p s rp false (1 / 1000000) (1 / 1000000) = .ok out →
      out.2 = s ∧ ∃ sf, out.1 = p.addScalarization sf ∧ sf.symbol = s ∧
        ∀ σ : String → ℚ,
          evalE σ sf.func = asfClaimValue p rp (1 / 1000000) (1 / 1000000) σ) := by
  have hg1 : ¬¬ (p.objectives.all fun o => (dlookup rp o.symbol).isSome) = true := by
    simp only [not_not, List.all_eq_true]
    exact hrp
  have hA : ((getCorrectedIdealAndNadir p).1.any fun kv => kv.2.isNone) = false := by
    rw [List.any_eq_false]
    intro kv hkv
    simp only [getCorrectedIdealAndNadir, List.mem_map] at hkv
    obtain ⟨o, ho, rfl⟩ := hkv
    obtain ⟨w, hw⟩ := Option.isSome_iff_exists.mp (hdef o ho).1
    cases hmx : o.maximize <;> simp [hw]
  have hB : ((getCorrectedIdealAndNadir p).2.any fun kv => kv.2.isNone) = false := by
    rw [List.any_eq_false]
    intro kv hkv
    simp only [getCorrectedIdealAndNadir, List.mem_map] at hkv
    obtain ⟨o, ho, rfl⟩ := hkv
    obtain ⟨w, hw⟩ := Option.isSome_iff_exists.mp (hdef o ho).2
    cases hmx : o.maximize <;> simp [hw]
  have hg2 : ¬ (((getCorrectedIdealAndNadir p).1.any fun kv => kv.2.isNone) ||
      (getCorrectedIdealAndNadir p).2.any fun kv => kv.2.isNone) = true := by
    simp [hA, hB]
  constructor
  · simp only [addAsfNondiff]
    rw [if_neg hg1, if_neg hg2]
    exact ⟨_, rfl⟩
  · intro out h
    simp only [addAsfNondiff] at h
    rw [if_neg hg1, if_neg hg2] at h
    simp only [Bool.false_eq_true, not_false_iff, if_true, Except.ok.injEq] at h
    subst h
    refine ⟨rfl, _, rfl, rfl, ?_⟩
    intro σ
    simp only [evalE, evalList_eq_map, evalE_joinAdd, List.map_map]
    unfold asfClaimValue
    congr 1
    · congr 1
      apply List.map_congr_left
      intro o ho
      simp only [Function.comp_apply, evalE]
      rw [corrected_nadir_getD p hnd o ho, corrected_ideal_getD p hnd o ho]
      unfold denomMin zMin
      cases hmx : o.maximize
      · simp only [Bool.false_eq_true, if_false, evalE, minValue, hmx]
      · simp only [evalE, minValue, hmx, if_true]
        ring
    · congr 1
      apply congrArg List.sum
      apply List.map_congr_left
      intro o ho
      simp only [Function.comp_apply, evalE]
      rw [corrected_nadir_getD p hnd o ho, corrected_ideal_getD p hnd o ho]
      unfold denomMin
      rfl

/-- Witness for C4: `add_asf_nondiff` succeeds on `probA` with the
decimal reference point `{f_1: 3.0, f_2: 4.0}`. -/
theorem add_asf_nondiff_value_witness :
    ∃ out, addAsfNondiff probA "asf" rpDecA false (1 / 1000000) (1 / 1000000) =
      Except.ok out :=
  (add_asf_nondiff_value probA "asf" rpDecA (by decide) (by decide) (by decide)).1

/-! ## Claim C5 (corrected) -/

/-- Counterexample to C5 as stated: on the one-objective minimization
problem `probMin1` with reference value `3.0` and
`reference_in_aug=True`, the added expression does **not** evaluate to
the claimed `max + ρ·Σ (f_min - z_min)/(…)` value at the zero
assignment — the interpolated `... else 1` turns the subtracted
reference value `3.0` into `3.01`. -/
theorem add_asf_nondiff_aug_counterexample :
    evalE sigmaZero ((asfAugOut.1.scalarizations.getD 0 ⟨"", "", Expr.lit 0⟩).func) ≠
      asfAugClaimValue probMin1 rpDecMin1 (1 / 1000000) (1 / 1000000) sigmaZero := by
  norm_num [asfAugOut, addAsfNondiff, probMin1, rpDecMin1, dlookup, List.lookup, dictInsert,
    getCorrectedIdealAndNadir, asfDenominator, Problem.addScalarization, Except.toOption,
    evalE, evalList, maxQ, joinAdd, asfAugClaimValue, zMin, minValue, denomMin, Dec.val,
    Dec.appendOne, sigmaZero, List.getD,
    show (("f_1" : String) == "f_1") = true from rfl]

/-- Claim C5 amended: with `reference_in_aug=True`, the augmentation
operand of `add_asf_nondiff` equals `(f_min - z·(-1))/(…)` only for
maximized objectives; for a minimized objective the digit `1` is
appended to the rendered reference value (`Dec.appendOne`), so the
operand is `(f_min - appendOne z)/(…)`.  The generic builder
`add_asf_generic_nondiff` under `reference_in_aug=True` instead
multiplies the whole difference by the sign, `(f_min - z)·(±1)/w`, so
the two builders' sign handling does not agree. -/
theorem add_asf_nondiff_aug_actual
    (p : Problem) (s : String) (rp : List (String × Dec)) (rpq wts : List (String × ℚ))
    (delta rho : ℚ)
    (hnd : (p.objectives.map fun o => o.symbol).Nodup)
    (hdef : ∀ o ∈ p.objectives, o.ideal.isSome ∧ o.nadir.isSome)
    (hrp : ∀ o ∈ p.objectives, (dlookup rp o.symbol).isSome)
    (hrpq : ∀ o ∈ p.objectives, (dlookup rpq o.symbol).isSome)
    (hw : ∀ o ∈ p.objectives, (dlookup wts o.symbol).isSome) :
    (∀ out, addAsfNondiff p s rp true delta rho = .ok out →
      ∃ sf, out.1 = p.addScalarization sf ∧
        ∀ σ : String → ℚ, evalE σ sf.func = asfAugActualValue p rp delta rho σ) ∧
    (∀ out, addAsfGenericNondiff p s rpq wts true rho = .ok out →
      ∃ sf, out.1 = p.addScalarization sf ∧
        ∀ σ : String → ℚ, evalE σ sf.func =
          maxQ (p.objectives.map fun o =>
            (σ (o.symbol ++ "_min") - (dlookup rpq o.symbol).getD 0 *
              (if o.maximize then -1 else 1)) / (dlookup wts o.symbol).getD 0) +
          rho * (p.objectives.map fun o =>
            (σ (o.symbol ++ "_min") - (dlookup rpq o.symbol).getD 0) *
              (if o.maximize then -1 else 1) / (dlookup wts o.symbol).getD 0).sum) := by
  have hA : ((getCorrectedIdealAndNadir p).1.any fun kv => kv.2.isNone) = false := by
    rw [List.any_eq_false]
    intro kv hkv
    simp only [getCorrectedIdealAndNadir, List.mem_map] at hkv
    obtain ⟨o, ho, rfl⟩ := hkv
    obtain ⟨w, hw2⟩ := Option.isSome_iff_exists.mp (hdef o ho).1
    cases hmx : o.maximize <;> simp [hw2]
  have hB : ((getCorrectedIdealAndNadir p).2.any fun kv => kv.2.isNone) = false := by
    rw [List.any_eq_false]
    intro kv hkv
    simp only [getCorrectedIdealAndNadir, List.mem_map] at hkv
    obtain ⟨o, ho, rfl⟩ := hkv
    obtain ⟨w, hw2⟩ := Option.isSome_iff_exists.mp (hdef o ho).2
    cases hmx : o.maximize <;> simp [hw2]
  have hg2 : ¬ (((getCorrectedIdealAndNadir p).1.any fun kv => kv.2.isNone) ||
      (getCorrectedIdealAndNadir p).2.any fun kv => kv.2.isNone) = true := by
    simp [hA, hB]
  constructor
  · intro out h
    simp only [addAsfNondiff] at h
    rw [if_neg (by simp only [not_not, List.all_eq_true]; exact hrp), if_neg hg2] at h
    simp only [not_true, if_false, Except.ok.injEq] at h
    subst h
    refine ⟨_, rfl, ?_⟩
    intro σ
    simp only [evalE, evalList_eq_map, evalE_joinAdd, List.map_map]
    unfold asfAugActualValue
    congr 1
    · congr 1
      apply List.map_congr_left
      intro o ho
      simp only [Function.comp_apply, evalE]
      rw [corrected_nadir_getD p hnd o ho, corrected_ideal_getD p hnd o ho]
      unfold denomMin zMin
      cases hmx : o.maximize
      · simp only [Bool.false_eq_true, if_false, evalE, minValue, hmx]
      · simp only [evalE, minValue, hmx, if_true]
        ring
    · congr 1
      apply congrArg List.sum
      apply List.map_congr_left
      intro o ho
      simp only [Function.comp_apply, evalE]
      rw [corrected_nadir_getD p hnd o ho, corrected_ideal_getD p hnd o ho]
      unfold denomMin zMin
      cases hmx : o.maximize
      · simp only [Bool.false_eq_true, if_false, evalE, minValue, hmx]
      · simp only [evalE, minValue, hmx, if_true]
        ring
  · intro out h
    simp only [addAsfGenericNondiff] at h
    rw [if_neg (by simp only [not_not, List.all_eq_true]; exact hrpq),
      if_neg (by simp only [not_not, List.all_eq_true]; exact hw), if_neg hg2] at h
    simp only [not_true, if_false, Except.ok.injEq] at h
    subst h
    refine ⟨_, rfl, ?_⟩
    intro σ
    simp only [evalE, evalList_eq_map, evalE_joinAdd, List.map_map]
    congr 1

/-- Witness for the amended C5: the two builders succeed on `probMin1`
and its reference point. -/
theorem add_asf_nondiff_aug_actual_witness :
    ∃ sf, ((addAsfNondiff probMin1 "asf" rpDecMin1 true (1 / 1000000)
        (1 / 1000000)).toOption.getD (probMin1, "")).1 =
      probMin1.addScalarization sf ∧
      ∀ σ : String → ℚ, evalE σ sf.func =
        asfAugActualValue probMin1 rpDecMin1 (1 / 1000000) (1 / 1000000) σ :=
  (add_asf_nondiff_aug_actual probMin1 "asf" rpDecMin1 [("f_1", 3)] [("f_1", 1)]
    (1 / 1000000) (1 / 1000000) (by decide) (by decide) (by decide) (by decide)
    (by decide)).1 _ rfl

/-! ## Claim C7 (corrected) -/

/-- Counterexample to C7 as stated: a `success=False` result submitted
to the archive step is archived as a fresh row with `current=True` —
`res.success` is never consulted, so the "every current entry
originates from a successful result" part of the claim fails (the
"never raises" part does hold: the step is total). -/
theorem save_results_archives_failed_counterexample :
    nimbusSaveStep [] 7 1 2 [failRes] =
      [⟨7, 1, 2, [2], [5], false, true, false⟩] ∧ failRes.success = false :=
  ⟨rfl, rfl⟩

theorem objVector_getD_map (results : List SolverResults) (i : ℕ) (b : Bool) :
    objVector (((results.map fun r => setSuccess r b).get? i).getD default) =
      objVector ((results.get? i).getD default) := by
  rw [List.get?_map]
  cases results.get? i <;> rfl

theorem dedupResults_map_setSuccess (results : List SolverResults) (b : Bool) :
    dedupResults (results.map fun r => setSuccess r b) =
      (dedupResults results).map fun r => setSuccess r b := by
  unfold dedupResults
  rw [List.length_map, List.map_filterMap]
  apply List.filterMap_congr
  intro j hj
  have hcond : ∀ i, objVector (((results.map fun r => setSuccess r b).get? i).getD default) =
      objVector ((results.get? i).getD default) := fun i => objVector_getD_map results i b
  simp only [hcond]
  split <;> rename_i hc
  · rw [List.get?_map]
  · rfl

theorem applyResult_setSuccess (prevIdxs : List ℕ) (uid pid mid : ℤ)
    (d : List ArchiveEntry) (r : SolverResults) (b : Bool) :
    applyResult prevIdxs uid pid mid d (setSuccess r b) =
      applyResult prevIdxs uid pid mid d r := rfl

/-- Claim C7 amended: the archive step never raises (it is a total
state transformation) and never consults `success` — a failed result is
archived exactly like a successful one; in particular after submitting
any single result (succeeded or failed) the archive holds a
`current=True` row whose objective vector is `allclose` to it. -/
theorem save_results_ignores_success
    (db : List ArchiveEntry) (uid pid mid : ℤ) (results : List SolverResults)
    (res : SolverResults) (b : Bool) :
    nimbusSaveStep db uid pid mid (results.map fun r => setSuccess r b) =
      nimbusSaveStep db uid pid mid results ∧
    ∃ e ∈ nimbusSaveStep db uid pid mid [res], e.current = true ∧
      allCloseList (objVector res) e.objectives = true := by
  constructor
  · unfold nimbusSaveStep saveResultsToDb
    rw [dedupResults_map_setSuccess, List.foldl_map]
    congr 1
  · have hp : ∀ i ∈ readSolutionIdxs db pid uid mid, i < (resetCurrent db pid uid).length := by
      intro i hi
      unfold readSolutionIdxs at hi
      have := List.of_mem_filter hi
      have hr := List.mem_range.mp (List.mem_of_mem_filter hi)
      simpa [resetCurrent] using hr
    unfold nimbusSaveStep saveResultsToDb
    rw [show dedupResults [res] = [res] from rfl]
    rw [List.foldl_cons, List.foldl_nil]
    unfold applyResult
    cases hf : (readSolutionIdxs db pid uid mid).find? (fun i =>
        allCloseList (objVector res) (((resetCurrent db pid uid).get? i).getD default).objectives) with
    | none =>
      refine ⟨⟨uid, pid, mid, res.optimalVariables.map Prod.snd, objVector res, false, true,
        false⟩, ?_, rfl, allCloseList_self _⟩
      exact List.mem_append_right _ (List.mem_singleton.mpr rfl)
    | some i =>
      have hmem := List.mem_of_find?_eq_some hf
      have hpred := List.find?_some hf
      have hlt : i < (resetCurrent db pid uid).length := hp i hmem
      have he0 : (resetCurrent db pid uid).get? i =
          some ((resetCurrent db pid uid).get ⟨i, hlt⟩) := List.get?_eq_get hlt
      rw [he0, Option.getD_some] at hpred
      refine ⟨{ (resetCurrent db pid uid).get ⟨i, hlt⟩ with current := true }, ?_, rfl, hpred⟩
      simp only [he0]
      exact List.get?_mem (List.get?_set_eq_of_lt _ hlt)

/-! ## Claim C8 -/

theorem find?_congr_mem {α : Type} (p q : α → Bool) (l : List α)
    (h : ∀ a ∈ l, p a = q a) : l.find? p = l.find? q := by
  induction l with
  | nil => rfl
  | cons x xs ih =>
    simp only [List.find?_cons, h x (List.mem_cons_self x xs)]
    cases q x
    · exact ih fun a ha => h a (List.mem_cons_of_mem x ha)
    · rfl

theorem resetFun_fields (pid uid : ℤ) (e : ArchiveEntry) :
    (resetFun pid uid e).problem = e.problem ∧ (resetFun pid uid e).user = e.user ∧
    (resetFun pid uid e).method = e.method ∧
    (resetFun pid uid e).objectives = e.objectives := by
  unfold resetFun
  split <;> simp

theorem resetFun_clears (pid uid : ℤ) (e : ArchiveEntry) (hp : e.problem = pid)
    (hu : e.user = uid) : (resetFun pid uid e).current = false := by
  unfold resetFun
  cases hc : e.current
  · rw [if_neg (by simp [hc])]
    exact hc
  · rw [if_pos (by simp [hp, hu, hc])]

theorem entryAt_map_reset (d : List ArchiveEntry) (pid uid : ℤ) (j : ℕ)
    (hj : j < d.length) :
    entryAt (resetCurrent d pid uid) j = resetFun pid uid (entryAt d j) := by
  unfold entryAt resetCurrent
  rw [List.get?_map, List.get?_eq_get hj]
  rfl

theorem entryAt_set_self (d : List ArchiveEntry) (j : ℕ) (e : ArchiveEntry)
    (hj : j < d.length) : entryAt (d.set j e) j = e := by
  unfold entryAt
  rw [List.get?_set_eq_of_lt _ hj]
  rfl

theorem entryAt_set_ne (d : List ArchiveEntry) (i j : ℕ) (e : ArchiveEntry)
    (hij : i ≠ j) : entryAt (d.set i e) j = entryAt d j := by
  unfold entryAt
  rw [List.get?_set_ne _ _ hij]

theorem get?_entryAt (d : List ArchiveEntry) (j : ℕ) (hj : j < d.length) :
    d.get? j = some (entryAt d j) := by
  unfold entryAt
  rw [List.get?_eq_get hj]
  rfl

theorem mem_readSolutionIdxs_lt (db : List ArchiveEntry) (pid uid mid : ℤ) (i : ℕ)
    (hi : i ∈ readSolutionIdxs db pid uid mid) : i < db.length := by
  unfold readSolutionIdxs at hi
  exact List.mem_range.mp (List.mem_of_mem_filter hi)

/-- When the incoming result has an `allclose` match among the
previously read rows, `save_results_to_db` re-flags exactly that row
(the first match) on the reset archive and appends nothing — stated
for any archive `d` agreeing with `db` on keys and objective vectors
(`db` is the archive the row indices were read from). -/
theorem nimbusSaveStep_matched (d db : List ArchiveEntry) (uid pid mid : ℤ)
    (res : SolverResults) (i0 : ℕ)
    (hfind : (readSolutionIdxs db pid uid mid).find? (fun i =>
      allCloseList (objVector res) (entryAt db i).objectives) = some i0)
    (hl : d.length = db.length)
    (hkeys : ∀ j, j < db.length → (entryAt d j).problem = (entryAt db j).problem ∧
      (entryAt d j).user = (entryAt db j).user ∧
      (entryAt d j).method = (entryAt db j).method ∧
      (entryAt d j).objectives = (entryAt db j).objectives) :
    nimbusSaveStep d uid pid mid [res] =
      (resetCurrent d pid uid).set i0
        { entryAt (resetCurrent d pid uid) i0 with current := true } := by
  have hi0lt : i0 < db.length :=
    mem_readSolutionIdxs_lt db pid uid mid i0 (List.mem_of_find?_eq_some hfind)
  have hread : readSolutionIdxs d pid uid mid = readSolutionIdxs db pid uid mid := by
    unfold readSolutionIdxs
    rw [hl]
    apply List.filter_congr
    intro j hj
    have hjlt : j < db.length := List.mem_range.mp hj
    rw [get?_entryAt d j (hl ▸ hjlt), get?_entryAt db j hjlt]
    show ((entryAt d j).problem == pid && (entryAt d j).user == uid &&
        (entryAt d j).method == mid) =
      ((entryAt db j).problem == pid && (entryAt db j).user == uid &&
        (entryAt db j).method == mid)
    rw [(hkeys j hjlt).1, (hkeys j hjlt).2.1, (hkeys j hjlt).2.2.1]
  have hfind2 : (readSolutionIdxs d pid uid mid).find? (fun i =>
      allCloseList (objVector res) (entryAt (resetCurrent d pid uid) i).objectives) =
      some i0 := by
    rw [hread]
    rw [find?_congr_mem _ (fun i => allCloseList (objVector res) (entryAt db i).objectives)]
    · exact hfind
    · intro i hi
      have hilt : i < db.length := mem_readSolutionIdxs_lt db pid uid mid i hi
      rw [entryAt_map_reset d pid uid i (hl ▸ hilt),
        (resetFun_fields pid uid (entryAt d i)).2.2.2, (hkeys i hilt).2.2.2]
  have hrlt : i0 < (resetCurrent d pid uid).length := by
    unfold resetCurrent
    rw [List.length_map]
    omega
  have he0 : (resetCurrent d pid uid).get? i0 =
      some (entryAt (resetCurrent d pid uid) i0) :=
    get?_entryAt (resetCurrent d pid uid) i0 hrlt
  unfold nimbusSaveStep saveResultsToDb
  rw [show dedupResults [res] = [res] from rfl, List.foldl_cons, List.foldl_nil]
  unfold applyResult
  rw [show (fun i => allCloseList (objVector res)
      (((resetCurrent d pid uid).get? i).getD default).objectives) =
    (fun i => allCloseList (objVector res)
      (entryAt (resetCurrent d pid uid) i).objectives) from rfl]
  rw [hfind2]
  simp only [he0]

/-- Claim C8: archiving is idempotent on the objective vector — when a
result's vector has an `allclose` match in the archive (first match at
row `i0`), two successive orchestration calls submitting it re-flag
that existing row `current=True` instead of appending, every other row
of the `(problem, user, method)` archive ends up `current=False`, and
after the second call exactly row `i0` — whose vector is `allclose` to
the submitted one — is flagged current. -/
theorem archive_idempotent (db : List ArchiveEntry) (uid pid mid : ℤ)
    (res : SolverResults) (i0 : ℕ)
    (hfind : (readSolutionIdxs db pid uid mid).find? (fun i =>
      allCloseList (objVector res) (entryAt db i).objectives) = some i0) :
    ∀ db1 db2, db1 = nimbusSaveStep db uid pid mid [res] →
      db2 = nimbusSaveStep db1 uid pid mid [res] →
      db2.length = db.length ∧
      allCloseList (objVector res) (entryAt db2 i0).objectives = true ∧
      (∀ j, j < db.length →
        ((matchesKey (entryAt db2 j) pid uid mid ∧ (entryAt db2 j).current = true) ↔
          j = i0)) := by
  intro db1 db2 h1 h2
  have hi0lt : i0 < db.length :=
    mem_readSolutionIdxs_lt db pid uid mid i0 (List.mem_of_find?_eq_some hfind)
  have hpred : allCloseList (objVector res) (entryAt db i0).objectives = true := by
    simpa using List.find?_some hfind
  have hkey0 : (entryAt db i0).problem = pid ∧ (entryAt db i0).user = uid ∧
      (entryAt db i0).method = mid := by
    have hmem := List.mem_of_find?_eq_some hfind
    unfold readSolutionIdxs at hmem
    have hmf := List.of_mem_filter hmem
    rw [get?_entryAt db i0 hi0lt] at hmf
    have hmf2 : (((entryAt db i0).problem == pid) && ((entryAt db i0).user == uid) &&
        ((entryAt db i0).method == mid)) = true := hmf
    simp only [Bool.and_eq_true, beq_iff_eq] at hmf2
    exact ⟨hmf2.1.1, hmf2.1.2, hmf2.2⟩
  have hstep1 := nimbusSaveStep_matched db db uid pid mid res i0 hfind rfl
    (fun j _ => ⟨rfl, rfl, rfl, rfl⟩)
  rw [hstep1] at h1
  have hrlt : i0 < (resetCurrent db pid uid).length := by
    unfold resetCurrent
    rw [List.length_map]
    exact hi0lt
  have hlen1 : db1.length = db.length := by
    rw [h1, List.length_set]
    unfold resetCurrent
    rw [List.length_map]
  have hkeys1 : ∀ j, j < db.length → (entryAt db1 j).problem = (entryAt db j).problem ∧
      (entryAt db1 j).user = (entryAt db j).user ∧
      (entryAt db1 j).method = (entryAt db j).method ∧
      (entryAt db1 j).objectives = (entryAt db j).objectives := by
    intro j hj
    by_cases hji : i0 = j
    · subst hji
      rw [h1, entryAt_set_self _ _ _ hrlt]
      have hr := entryAt_map_reset db pid uid i0 hi0lt
      have hf := resetFun_fields pid uid (entryAt db i0)
      rw [hr] at *
      exact ⟨hf.1, hf.2.1, hf.2.2.1, hf.2.2.2⟩
    · rw [h1, entryAt_set_ne _ _ _ _ hji, entryAt_map_reset db pid uid j hj]
      have hf := resetFun_fields pid uid (entryAt db j)
      exact ⟨hf.1, hf.2.1, hf.2.2.1, hf.2.2.2⟩
  have hstep2 := nimbusSaveStep_matched db1 db uid pid mid res i0 hfind hlen1 hkeys1
  rw [hstep2] at h2
  have hrlt1 : i0 < (resetCurrent db1 pid uid).length := by
    unfold resetCurrent
    rw [List.length_map]
    omega
  have he2 : entryAt db2 i0 =
      { entryAt (resetCurrent db1 pid uid) i0 with current := true } := by
    rw [h2, entryAt_set_self _ _ _ hrlt1]
  have hobj2 : (entryAt db2 i0).objectives = (entryAt db i0).objectives := by
    rw [he2]
    show (entryAt (resetCurrent db1 pid uid) i0).objectives = _
    rw [entryAt_map_reset db1 pid uid i0 (by omega),
      (resetFun_fields pid uid (entryAt db1 i0)).2.2.2, (hkeys1 i0 hi0lt).2.2.2]
  refine ⟨?_, ?_, ?_⟩
  · rw [h2, List.length_set]
    unfold resetCurrent
    rw [List.length_map]
    exact hlen1
  · rw [hobj2]
    exact hpred
  · intro j hj
    constructor
    · rintro ⟨hm, hc⟩
      by_contra hji
      have hne : i0 ≠ j := fun he => hji he.symm
      have hj2 : entryAt db2 j = resetFun pid uid (entryAt db1 j) := by
        rw [h2, entryAt_set_ne _ _ _ _ hne, entryAt_map_reset db1 pid uid j (by omega)]
      have hclear : (entryAt db2 j).current = false := by
        rw [hj2]
        apply resetFun_clears
        · have : (entryAt db2 j).problem = (entryAt db1 j).problem := by
            rw [hj2]
            exact (resetFun_fields pid uid (entryAt db1 j)).1
          rw [← this]
          exact hm.1
        · have : (entryAt db2 j).user = (entryAt db1 j).user := by
            rw [hj2]
            exact (resetFun_fields pid uid (entryAt db1 j)).2.1
          rw [← this]
          exact hm.2.1
      rw [hclear] at hc
      exact Bool.false_ne_true hc
    · intro hji
      subst hji
      have hcur : (entryAt db2 j).current = true := by
        rw [he2]
      have hkeysb : (entryAt db2 j).problem = (entryAt db j).problem ∧
          (entryAt db2 j).user = (entryAt db j).user ∧
          (entryAt db2 j).method = (entryAt db j).method := by
        rw [he2]
        have hr := entryAt_map_reset db1 pid uid j (by omega)
        have hf := resetFun_fields pid uid (entryAt db1 j)
        have hk := hkeys1 j hj
        exact ⟨by rw [show (entryAt (resetCurrent db1 pid uid) j).problem =
            (entryAt db1 j).problem by rw [hr]; exact hf.1]; exact hk.1,
          by rw [show (entryAt (resetCurrent db1 pid uid) j).user =
            (entryAt db1 j).user by rw [hr]; exact hf.2.1]; exact hk.2.1,
          by rw [show (entryAt (resetCurrent db1 pid uid) j).method =
            (entryAt db1 j).method by rw [hr]; exact hf.2.2.1]; exact hk.2.2.1⟩
      exact ⟨⟨hkeysb.1.trans hkey0.1, hkeysb.2.1.trans hkey0.2.1,
        hkeysb.2.2.trans hkey0.2.2⟩, hcur⟩

/-- Witness for C8: on the one-row archive `dbB` whose entry matches
`resB`'s vector, two successive calls leave the archive the same
length (the row is re-flagged, not duplicated). -/
theorem archive_idempotent_witness :
    (nimbusSaveStep (nimbusSaveStep dbB 1 2 3 [resB]) 1 2 3 [resB]).length = dbB.length := by
  have hfind : (readSolutionIdxs dbB 2 1 3).find? (fun i =>
      allCloseList (objVector resB) (entryAt dbB i).objectives) = some 0 := by
    rw [show readSolutionIdxs dbB 2 1 3 = [0] from rfl]
    rw [List.find?_cons]
    rw [show allCloseList (objVector resB) (entryAt dbB 0).objectives = true from
      allCloseList_self [5]]
  exact (archive_idempotent dbB 1 2 3 resB 0 hfind _ _ rfl rfl).1

end DesdeoSpec
